import Mathlib

/-!
Verification of the execution-logging subsystem (`src/execution/logging.py`).

Python `str` values are modelled as `List Char` (`PyStr`), restricted to the
ASCII behaviour of the Python primitives involved (`\w`, `str.lower`,
`int()` digit parsing).  Python `dict` objects are modelled as ordered
association lists (`alookup` / `dict_set`), matching insertion-order
iteration and in-place overwrite of existing keys.  Functions that can raise
a Python exception return `Option` / nested `Option`, where the outer `none`
models an exception propagating out of the function.

The model fixes `os.linesep = "\n"` (POSIX deployment).  Reading a file in
text mode (`open(path, 'r')`) applies Python's universal-newline translation
(`univNewlines`); reading via `file_utils.read_file(..., keep_newlines=True)`
returns the stored content unchanged (modelled from the spec: filesystem
read primitives are external collaborators that return raw content).
-/

/-- Python strings are modelled as lists of characters. -/
abbrev PyStr := List Char

/-- Converts a Lean string literal to the `PyStr` model. -/
def pstr (s : String) : PyStr := s.toList

/-- The marker line constant `OUTPUT_STARTED_MARKER` from the source. -/
def MARKER : PyStr := (">>>>>  OUTPUT STARTED <<<<<").toList

/-- Models `os.linesep` on the POSIX platform the server runs on. -/
def os_linesep : PyStr := [('\n' : Char)]

/-- Characters at which Python `str.splitlines` breaks a line. -/
def isLineBreakChar (c : Char) : Bool :=
  c = '\n' || c = '\r' || c = '\x0b' || c = '\x0c' ||
  c = '\x1c' || c = '\x1d' || c = '\x1e' || c = '\x85' ||
  c = '\u2028' || c = '\u2029'

/-- Characters matched by `[\w_]` in the source's field regex, on its ASCII
fragment: letters, digits, underscore.  The source compiles the pattern
without `re.ASCII`, so Python's `\w` also matches non-ASCII word characters
(for which no character table exists here); the two classes agree exactly on
ASCII characters, and every statement whose truth depends on where a field
line starts therefore restricts the scanned text to ASCII (`asciiOnly`). -/
def isWordChar (c : Char) : Bool := c.isAlphanum || c = '_'

/-- Prepends a character onto the first chunk of a chunk list (used to build
line splitters by structural recursion). -/
def consFirst (c : Char) : List PyStr → List PyStr
  | [] => [[c]]
  | l :: ls => (c :: l) :: ls

/-- Python `str.splitlines(keepends=True)`: each line keeps its terminator,
`"\r\n"` counts as a single terminator, a final unterminated line is kept. -/
def splitLinesKeep : PyStr → List PyStr
  | [] => []
  | [c] => [[c]]
  | c :: d :: rest =>
    if c = '\r' then
      if d = '\n' then ['\r', '\n'] :: splitLinesKeep rest
      else ['\r'] :: splitLinesKeep (d :: rest)
    else if isLineBreakChar c then [c] :: splitLinesKeep (d :: rest)
    else consFirst c (splitLinesKeep (d :: rest))

/-- Splitting a text into lines at `'\n'` only, keeping the terminators:
this is how iterating over an (already newline-translated) text file yields
lines in Python. -/
def splitNL : PyStr → List PyStr
  | [] => []
  | c :: rest => if c = '\n' then ['\n'] :: splitNL rest else consFirst c (splitNL rest)

/-- Python's universal-newline translation applied when a file is opened in
text mode: `"\r\n"` and a lone `"\r"` both become `"\n"`. -/
def univNewlines : PyStr → PyStr
  | [] => []
  | [c] => if c = '\r' then ['\n'] else [c]
  | c :: d :: rest =>
    if c = '\r' then
      if d = '\n' then '\n' :: univNewlines rest
      else '\n' :: univNewlines (d :: rest)
    else c :: univNewlines (d :: rest)

/-- The helper `_rstrip_once(text, char)` from the source: drop one trailing
occurrence of `c` if present. -/
def rstrip_once (t : PyStr) (c : Char) : PyStr :=
  if t.getLast? = some c then t.dropLast else t

/-- Bool test that `p` is an initial segment of `s` (Python `str.startswith`). -/
def begins (p s : PyStr) : Bool := decide (s.take p.length = p)

/-- The helper `_lstrip_any_linesep(text)` from the source: strip one leading
`"\r\n"`, else one leading `os.linesep`, else nothing. -/
def lstrip_any_linesep (t : PyStr) : PyStr :=
  if begins ['\r', '\n'] t then t.drop 2
  else if begins os_linesep t then t.drop os_linesep.length
  else t

/-- Python `s.split(sep, 1)` restricted to the way the source uses it: `some
(before, after)` when `sep` occurs (split at the first occurrence), `none`
when it does not (the source then crashes indexing `[1]`). -/
def splitOnce (p : PyStr) : PyStr → Option (PyStr × PyStr)
  | [] => if p = [] then some ([], []) else none
  | c :: cs =>
    if begins p (c :: cs) then some ([], (c :: cs).drop p.length)
    else
      match splitOnce p cs with
      | some (a, b) => some (c :: a, b)
      | none => none

/-- Splits a string at every occurrence of character `c` (Python
`str.split(c)`), used to talk about the interior lines of a field value. -/
def splitOnChar (c : Char) : PyStr → List PyStr
  | [] => [[]]
  | a :: rest =>
    if a = c then [] :: splitOnChar c rest
    else consFirst a (splitOnChar c rest)

/-- Joins chunks with separator `c`; inverse of `splitOnChar`. -/
def joinSep (c : Char) : List PyStr → PyStr
  | [] => []
  | [s] => s
  | s :: ss => s ++ c :: joinSep c ss

/-- Ordered-dictionary lookup (`dict.get`): first pair with the given key. -/
def alookup {α : Type} : List (PyStr × α) → PyStr → Option α
  | [], _ => none
  | p :: rest, k => if p.1 = k then some p.2 else alookup rest k

/-- Ordered-dictionary assignment (`d[k] = v`): overwrite in place when the
key exists, append otherwise — matching Python dict insertion order. -/
def dict_set {α : Type} : List (PyStr × α) → PyStr → α → List (PyStr × α)
  | [], k, v => [(k, v)]
  | p :: rest, k, v => if p.1 = k then (k, v) :: rest else p :: dict_set rest k v

/-- Decimal digit character for `d < 10`. -/
def digitChar (d : Nat) : Char := Char.ofNat (48 + d)

/-- Decimal rendering of a positive number, most significant digit first;
the first argument is structural fuel (`n` itself suffices). -/
def natToCharsAux : Nat → Nat → PyStr
  | 0, _ => []
  | _, 0 => []
  | fuel + 1, n + 1 =>
    natToCharsAux fuel ((n + 1) / 10) ++ [digitChar ((n + 1) % 10)]

/-- Decimal rendering of a natural number (Python `str` on a non-negative int). -/
def natToChars (n : Nat) : PyStr := if n = 0 then [('0' : Char)] else natToCharsAux n n

/-- Python `str(int)`: optional minus sign followed by decimal digits. -/
def pyStrOfInt (m : Int) : PyStr :=
  if m < 0 then ('-') :: natToChars m.natAbs else natToChars m.natAbs

/-- ASCII whitespace stripped by Python `int(str)`. -/
def isPySpace (c : Char) : Bool :=
  c = ' ' || c = '\t' || c = '\n' || c = '\r' || c = '\x0b' || c = '\x0c'

/-- Strips ASCII whitespace from both ends. -/
def stripWS (s : PyStr) : PyStr :=
  ((s.dropWhile isPySpace).reverse.dropWhile isPySpace).reverse

/-- Digit-run parser of Python `int()`: decimal digits with single
underscores allowed between digits. -/
def pyDigitsGo : Nat → PyStr → Option Nat
  | acc, [] => some acc
  | acc, c :: rest =>
    if c.isDigit then pyDigitsGo (10 * acc + (c.toNat - 48)) rest
    else if c = '_' then
      match rest with
      | [] => none
      | d :: rest' =>
        if d.isDigit then pyDigitsGo (10 * acc + (d.toNat - 48)) rest' else none
    else none

/-- Digit parsing for Python `int()`: requires a leading digit. -/
def pyDigits? (ds : PyStr) : Option Nat :=
  match ds with
  | [] => none
  | c :: _ => if c.isDigit then pyDigitsGo 0 ds else none

/-- Python `int(str)` (ASCII model): strip whitespace, optional sign, decimal
digits; `none` models the `ValueError` raised on malformed input. -/
def pyInt? (s : PyStr) : Option Int :=
  match stripWS s with
  | [] => none
  | c :: cs =>
    if c = '+' then (pyDigits? cs).map (fun n => (n : Int))
    else if c = '-' then (pyDigits? cs).map (fun n => -(n : Int))
    else (pyDigits? (c :: cs)).map (fun n => (n : Int))

/-- Modelled from the spec: `ms_to_datetime` (from the missing
`utils.date_utils`) decodes epoch milliseconds to a calendar timestamp; the
conversion is injective and the subsystem never inspects its structure, so
the timestamp is represented by the millisecond value itself. -/
def ms_to_datetime (ms : Int) : Int := ms

/-- Result of `re.fullmatch('([\w_]+):(.*\r?\n)', line)`: `some (key,
value-with-terminator)` exactly when the line is a nonempty run of word
characters, a colon, and a remainder that ends in `'\n'` and contains no
other `'\n'`.  Faithful for ASCII lines; for non-ASCII lines `isWordChar`
underapproximates the regex's Unicode `\w`, so theorems sensitive to the
difference carry an `asciiOnly` restriction on the scanned text. -/
def matchFieldLine (l : PyStr) : Option (PyStr × PyStr) :=
  match l.dropWhile isWordChar with
  | ':' :: r =>
    if l.takeWhile isWordChar ≠ [] ∧ r.getLast? = some '\n' ∧ ('\n' ∉ r.dropLast) then
      some (l.takeWhile isWordChar, r)
    else none
  | _ => none

/-- The loop body of `_parse_history_parameters`: current open field (key and
accumulated value) and the parameters dict built so far.  The result `none`
models the `TypeError` raised by `current_value += line` when a continuation
line arrives before any field was opened. -/
def parse_history_parameters_go :
    List PyStr → Option (PyStr × PyStr) → List (PyStr × PyStr) → Option (List (PyStr × PyStr))
  | [], none, ps => some ps
  | [], some kv, ps => some (dict_set ps kv.1 (rstrip_once kv.2 '\n'))
  | l :: ls, cur, ps =>
    match matchFieldLine l with
    | some kv =>
      match cur with
      | none => parse_history_parameters_go ls (some kv) ps
      | some kv0 =>
        parse_history_parameters_go ls (some kv) (dict_set ps kv0.1 (rstrip_once kv0.2 '\n'))
    | none =>
      match cur with
      | none => none
      | some kv0 => parse_history_parameters_go ls (some (kv0.1, kv0.2 ++ l)) ps

/-- `_parse_history_parameters(parameters_text)` from the source. -/
def parse_history_parameters (text : PyStr) : Option (List (PyStr × PyStr)) :=
  parse_history_parameters_go (splitLinesKeep text) none []

/-- Loop of `_read_parameters_text`: scan lines (as yielded by text-mode file
iteration) until one equals the marker after `_rstrip_once(line, '\n')`. -/
def read_parameters_go : List PyStr → PyStr → Bool × PyStr
  | [], acc => (false, acc)
  | l :: ls, acc =>
    if rstrip_once l '\n' = MARKER then (true, acc) else read_parameters_go ls (acc ++ l)

/-- `_read_parameters_text(file_path)` from the source, applied to the raw
stored content of the file: text-mode reading first applies universal-newline
translation, then iterates `'\n'`-terminated lines. -/
def read_parameters_text (raw : PyStr) : Bool × PyStr :=
  read_parameters_go (splitNL (univNewlines raw)) []

/-- The in-memory `HistoryEntry` record from the source. -/
structure HistoryEntry where
  id : PyStr
  user_name : Option PyStr
  user_id : Option PyStr
  start_time : Option Int
  script_name : Option PyStr
  command : Option PyStr
  exit_code : Option Int
deriving DecidableEq, Repr

def keyId : PyStr := ("id").toList
def keyUserName : PyStr := ("user_name").toList
def keyUserId : PyStr := ("user_id").toList
def keyScript : PyStr := ("script").toList
def keyStartTime : PyStr := ("start_time").toList
def keyCommand : PyStr := ("command").toList
def keyExitCode : PyStr := ("exit_code").toList

/-- Builds the entry record from the parsed dict once `id`, `exit_code` and
`start_time` have been handled. -/
def mkEntry (ps : List (PyStr × PyStr)) (idv : PyStr) (ec : Option Int)
    (stt : Option Int) : HistoryEntry :=
  { id := idv
    user_name := alookup ps keyUserName
    user_id := alookup ps keyUserId
    start_time := stt
    script_name := alookup ps keyScript
    command := alookup ps keyCommand
    exit_code := ec }

/-- The `start_time` tail of `_parameters_to_entry`: a present, nonempty
`start_time` is converted with `int()` (a `ValueError` is modelled by the
outer `none`) and decoded with `ms_to_datetime`. -/
def parameters_to_entry_aux (ps : List (PyStr × PyStr)) (idv : PyStr)
    (ec : Option Int) : Option (Option HistoryEntry) :=
  match alookup ps keyStartTime with
  | none => some (some (mkEntry ps idv ec none))
  | some sts =>
    if sts = [] then some (some (mkEntry ps idv ec none))
    else
      match pyInt? sts with
      | none => none
      | some stv => some (some (mkEntry ps idv ec (some (ms_to_datetime stv))))

/-- `_parameters_to_entry(parameters)` from the source.  `some none` models
`return None` (missing or empty `id`); the outer `none` models a raised
`ValueError` from `int()`. -/
def parameters_to_entry (ps : List (PyStr × PyStr)) : Option (Option HistoryEntry) :=
  match alookup ps keyId with
  | none => some none
  | some idv =>
    if idv = [] then some none
    else
      match alookup ps keyExitCode with
      | none => parameters_to_entry_aux ps idv none
      | some ecs =>
        match pyInt? ecs with
        | none => none
        | some ec => parameters_to_entry_aux ps idv (some ec)

/-- The output folder, modelled as an ordered association of file names to
raw stored contents; the list order is the `os.listdir` enumeration order. -/
abbrev FS := List (PyStr × PyStr)

/-- `_extract_history_entry(file)` from the source: read the header text
(skipping files without the marker), parse it, build the entry.  The outer
`none` models a raised exception (missing file, `TypeError` in the parser, or
`ValueError` in `int()`); `some none` models `return None`. -/
def extract_history_entry (fs : FS) (file : PyStr) : Option (Option HistoryEntry) :=
  match alookup fs file with
  | none => none
  | some content =>
    if (read_parameters_text content).1 = false then some none
    else
      match parse_history_parameters (read_parameters_text content).2 with
      | none => none
      | some ps => parameters_to_entry ps

/-- State owned by `ExecutionLoggingService`: the directory, the
`_visited_files` set and the `_ids_to_file_map` index. -/
structure LogState where
  fs : FS
  visited : List PyStr
  cache : List (PyStr × PyStr)
deriving DecidableEq, Repr

/-- Case-insensitive `.log` suffix test (`file.lower().endswith('.log')`). -/
def isLogName (f : PyStr) : Bool := (pstr (".log")).isSuffixOf (f.map Char.toLower)

/-- Discovery loop of `_renew_files_cache`: walk the directory listing,
skip non-`.log` and already-visited names, mark the rest visited, extract and
index them.  Also counts how many files were parsed (the spec's observable
"parse counter").  `none` models an exception escaping from extraction. -/
def discover_go (fs : FS) :
    List PyStr → List PyStr → List (PyStr × PyStr) → Nat →
    Option (List PyStr × List (PyStr × PyStr) × Nat)
  | [], visited, cache, n => some (visited, cache, n)
  | f :: rest, visited, cache, n =>
    if isLogName f = false then discover_go fs rest visited cache n
    else if f ∈ visited then discover_go fs rest visited cache n
    else
      match extract_history_entry fs f with
      | none => none
      | some none => discover_go fs rest (f :: visited) cache (n + 1)
      | some (some e) => discover_go fs rest (f :: visited) (dict_set cache e.id f) (n + 1)

/-- `_renew_files_cache` with the parse counter: prune index entries whose
file vanished, then discover new `.log` files. -/
def renew_files_cache_count (st : LogState) : Option (LogState × Nat) :=
  let pruned := st.cache.filter (fun p => (alookup st.fs p.2).isSome)
  match discover_go st.fs (st.fs.map Prod.fst) st.visited pruned 0 with
  | none => none
  | some (v, c, n) => some ({ st with visited := v, cache := c }, n)

/-- `_renew_files_cache` from the source (`sync` in the spec). -/
def renew_files_cache (st : LogState) : Option LogState :=
  (renew_files_cache_count st).map Prod.fst

/-- Collects entries from the index's files, skipping files whose extraction
returns `None` (loop body of `get_history_entries`). -/
def history_entries_of (fs : FS) : List PyStr → Option (List HistoryEntry)
  | [] => some []
  | f :: rest =>
    match extract_history_entry fs f with
    | none => none
    | some none => history_entries_of fs rest
    | some (some e) => (history_entries_of fs rest).map (fun es => e :: es)

/-- `get_history_entries()` from the source. -/
def get_history_entries (st : LogState) : Option (List HistoryEntry × LogState) :=
  match renew_files_cache st with
  | none => none
  | some st1 =>
    match history_entries_of st1.fs (st1.cache.map Prod.snd) with
    | none => none
    | some es => some (es, st1)

/-- `find_history_entry(execution_id)` from the source: sync, resolve the
filename, extract; an unindexed id or unparseable file yields `None`. -/
def find_history_entry (st : LogState) (eid : PyStr) :
    Option (Option HistoryEntry × LogState) :=
  match renew_files_cache st with
  | none => none
  | some st1 =>
    match alookup st1.cache eid with
    | none => some (none, st1)
    | some f =>
      match extract_history_entry st1.fs f with
      | none => none
      | some e? => some (e?, st1)

/-- `find_log(execution_id)` from the source: sync, resolve, read the raw
file (`file_utils.read_file` with `keep_newlines=True` returns the stored
content unchanged), split once on the marker, strip one leading terminator.
`none` models `FileNotFoundError` or the `IndexError` on a marker-less file. -/
def find_log (st : LogState) (eid : PyStr) : Option (Option PyStr × LogState) :=
  match renew_files_cache st with
  | none => none
  | some st1 =>
    match alookup st1.cache eid with
    | none => some (none, st1)
    | some f =>
      match alookup st1.fs f with
      | none => none
      | some content =>
        match splitOnce MARKER content with
        | none => none
        | some pr => some (some (lstrip_any_linesep pr.2), st1)

/-- `key + ':' + value + os.linesep`, the line written by `write_line` for
one header field. -/
def encode_field (k v : PyStr) : PyStr := k ++ (':') :: v ++ os_linesep

/-- Concatenation of the encoded header fields, in writing order. -/
def fields_text (l : List (PyStr × PyStr)) : PyStr :=
  (l.map (fun p => encode_field p.1 p.2)).flatten

/-- The six required header fields written by `start_logging`, in order. -/
def header_pairs (eid un uid sc cmd : PyStr) (stm : Int) : List (PyStr × PyStr) :=
  [(keyId, eid), (keyUserName, un), (keyUserId, uid), (keyScript, sc),
   (keyStartTime, pyStrOfInt stm), (keyCommand, cmd)]

/-- File content produced by `start_logging` before any output chunk: the six
header lines followed by the marker line. -/
def start_logging_content (eid un uid sc cmd : PyStr) (stm : Int) : PyStr :=
  fields_text (header_pairs eid un uid sc cmd stm) ++ MARKER ++ os_linesep

/-- Adds a filename to the `_visited_files` set. -/
def add_visited (f : PyStr) (vis : List PyStr) : List PyStr :=
  if f ∈ vis then vis else f :: vis

/-- `start_logging` from the source, after the filename has been resolved:
the log-name creation and unique-path allocation are external collaborators
(modelled from the spec: they return a fresh name, passed here as `fname`),
the writer writes the six fields and the marker, and the new id→file mapping
is indexed immediately. -/
def start_logging (st : LogState) (eid un uid sc cmd : PyStr) (stm : Int)
    (fname : PyStr) : LogState :=
  { fs := dict_set st.fs fname (start_logging_content eid un uid sc cmd stm)
    visited := add_visited fname st.visited
    cache := dict_set st.cache eid fname }

/-- `_write_post_execution_info` from the source (the exit-code patch): ask
the provider, and if it reports a code, split the raw content once on
`marker + os.linesep`, append the `exit_code` line to the header part and
rewrite the file.  `none` models `FileNotFoundError` or the `IndexError`
when the file has no `marker + linesep`. -/
def write_post_execution_info (fs : FS) (eid : PyStr) (path : PyStr)
    (provider : PyStr → Option Int) : Option FS :=
  match provider eid with
  | none => some fs
  | some c =>
    match alookup fs path with
    | none => none
    | some content =>
      match splitOnce (MARKER ++ os_linesep) content with
      | none => none
      | some pr =>
        some (dict_set fs path
          (pr.1 ++ keyExitCode ++ (':') :: pyStrOfInt c ++ os_linesep ++
            MARKER ++ os_linesep ++ pr.2))



/-- Flushing the currently open field into the parameters dict (the
`parameters[current_key] = _rstrip_once(current_value, chr(10))` step). -/
def flush_param (cur : Option (PyStr × PyStr)) (ps : List (PyStr × PyStr)) :
    List (PyStr × PyStr) :=
  match cur with
  | none => ps
  | some kv => dict_set ps kv.1 (rstrip_once kv.2 '\n')

/-- Inserting a list of key/value pairs into a dict, in order. -/
def insertAll (d : List (PyStr × PyStr)) (pairs : List (PyStr × PyStr)) :
    List (PyStr × PyStr) :=
  pairs.foldl (fun d p => dict_set d p.1 p.2) d

/-- The physical lines produced by one encoded field whose value has the
given `'\n'`-separated segments: the first segment rides on the `key:` line,
later segments become their own lines. -/
def field_lines (k : PyStr) : List PyStr → List PyStr
  | [] => []
  | s0 :: srest =>
    (k ++ (':') :: (s0 ++ [('\n' : Char)])) :: srest.map (fun s => s ++ [('\n' : Char)])

/-- All physical lines of an encoded header. -/
def fields_lines (pairs : List (PyStr × PyStr)) : List PyStr :=
  (pairs.map (fun p => field_lines p.1 (splitOnChar '\n' p.2))).flatten

/-- A header key as written by the source: nonempty, word characters only. -/
def goodKey (k : PyStr) : Bool := decide (k ≠ []) && k.all isWordChar

/-- A continuation segment that the decoder keeps as a continuation line:
appending the terminator must not produce a field-start line. -/
def contLineOk (s : PyStr) : Bool := (matchFieldLine (s ++ [('\n' : Char)])).isNone

/-- A value that survives the encode/decode round trip: it may contain
`'\n'` and `':'` freely, but no other line-break character (`'\r'`, form
feeds, unicode separators), and no embedded line may look like the start of
a field (`word-characters:`). -/
def goodValue (v : PyStr) : Bool :=
  (v.all (fun c => decide (c = '\n') || !(isLineBreakChar c))) &&
  ((splitOnChar '\n' v).tail.all contLineOk)

/-- ASCII-only text.  On ASCII characters the embedding's `isWordChar`
coincides with the Unicode `\w` class of the source's field regex, so the
parser model is exact on ASCII text; statements whose truth depends on
where a field line starts restrict the scanned text with this predicate. -/
def asciiOnly (v : PyStr) : Bool := v.all (fun c => decide (c.toNat < 128))

/-- A value covered by the round-trip theorem: ASCII (so the modelled
field-start test agrees with the source's Unicode regex on every line it
scans) and `goodValue` (no exotic line breaks, no embedded field-shaped
line). -/
def roundValue (v : PyStr) : Bool := asciiOnly v && goodValue v

/-- A value with no line-break characters at all (the common single-line
case that `start_logging` writes for well-formed executions). -/
def lineFree (v : PyStr) : Bool := v.all (fun c => !(isLineBreakChar c))

/-- All files of the directory are already in the visited set, so a sync
performs no parsing at all. -/
def allVisited (st : LogState) : Bool :=
  st.fs.all (fun p => decide (p.1 ∈ st.visited))

/-- Every file in the directory is ASCII (so the modelled parser reads each
file exactly as the source's Unicode-`\w` regex does) and either fails
extraction cleanly (`None`) or yields an entry whose id differs from `x`;
no file raises. -/
def extractionsAvoidId (fs : FS) (x : PyStr) : Bool :=
  fs.all (fun p =>
    asciiOnly p.2 &&
    match extract_history_entry fs p.1 with
    | none => false
    | some none => true
    | some (some e) => decide (e.id ≠ x))


/-- The field-start test of the claim exactly as the specification words it: a
line "matching `^[A-Za-z0-9_]+:.*`", i.e. a nonempty run of word characters
followed by a colon, with no requirement that the line carry a terminator. -/
def spec_field_start (l : PyStr) : Option (PyStr × PyStr) :=
  match l.dropWhile isWordChar with
  | ':' :: r =>
    if l.takeWhile isWordChar ≠ [] then some (l.takeWhile isWordChar, r) else none
  | _ => none

/-- Grouping formulation of the decode rule: starting from the currently
open field, each further line either opens a new group (when it is a
field-start line) or is appended verbatim to the value of the open group. -/
def groupGo : List PyStr → PyStr × PyStr → List (PyStr × PyStr)
  | [], cur => [cur]
  | l :: ls, cur =>
    match matchFieldLine l with
    | some kv => cur :: groupGo ls kv
    | none => groupGo ls (cur.1, cur.2 ++ l)

/-- Specification-style decoder: split the text into physical lines, group
them into fields at the field-start lines, then store the value of each group
(with a single trailing newline stripped), later duplicates winning.  A
first line that is not a field-start line leaves no open field (`none`). -/
def decodeBlocks (text : PyStr) : Option (List (PyStr × PyStr)) :=
  match splitLinesKeep text with
  | [] => some []
  | l :: ls =>
    match matchFieldLine l with
    | none => none
    | some kv =>
      some ((groupGo ls kv).foldl (fun d p => dict_set d p.1 (rstrip_once p.2 '\n')) [])

/-! ### Basic lemmas about the string primitives -/

lemma consFirst_cons (c : Char) (l : PyStr) (ls : List PyStr) :
    consFirst c (l :: ls) = (c :: l) :: ls := rfl

lemma splitNL_append_line (x y : PyStr) (hx : ('\n') ∉ x) :
    splitNL (x ++ ('\n') :: y) = (x ++ [('\n' : Char)]) :: splitNL y := by
  induction x with
  | nil => simp [splitNL]
  | cons a x ih =>
    have ha : a ≠ '\n' := fun h => hx (h ▸ List.mem_cons_self a x)
    have hx' : ('\n') ∉ x := fun h => hx (List.mem_cons_of_mem a h)
    simp [splitNL, ha, ih hx', consFirst]

lemma splitLinesKeep_cons_nl (y : PyStr) :
    splitLinesKeep (('\n') :: y) = [('\n' : Char)] :: splitLinesKeep y := by
  cases y with
  | nil => simp [splitLinesKeep]
  | cons d rest => simp [splitLinesKeep, isLineBreakChar]

lemma splitLinesKeep_append_line (x y : PyStr)
    (hx : ∀ c ∈ x, isLineBreakChar c = false) :
    splitLinesKeep (x ++ ('\n') :: y) = (x ++ [('\n' : Char)]) :: splitLinesKeep y := by
  induction x with
  | nil => simpa using splitLinesKeep_cons_nl y
  | cons a x ih =>
    have ha : isLineBreakChar a = false := hx a (List.mem_cons_self a x)
    have har : a ≠ '\r' := by
      intro h; subst h; simp [isLineBreakChar] at ha
    have hx' : ∀ c ∈ x, isLineBreakChar c = false :=
      fun c hc => hx c (List.mem_cons_of_mem a hc)
    have hne : x ++ ('\n') :: y ≠ [] := by simp
    rcases List.exists_cons_of_ne_nil hne with ⟨d, rest, hd⟩
    calc splitLinesKeep (a :: x ++ ('\n') :: y)
        = splitLinesKeep (a :: (x ++ ('\n') :: y)) := by simp
      _ = consFirst a (splitLinesKeep (x ++ ('\n') :: y)) := by
          rw [hd]; simp [splitLinesKeep, har, ha]
      _ = ((a :: x) ++ [('\n' : Char)]) :: splitLinesKeep y := by
          rw [ih hx', consFirst_cons]; simp

lemma univNewlines_cons_ne (a : Char) (l : PyStr) (ha : a ≠ '\r') :
    univNewlines (a :: l) = a :: univNewlines l := by
  cases l with
  | nil => simp [univNewlines, ha]
  | cons d rest => simp [univNewlines, ha]

lemma univNewlines_append_no_cr (A B : PyStr) (h : ('\r') ∉ A) :
    univNewlines (A ++ B) = A ++ univNewlines B := by
  induction A with
  | nil => simp
  | cons a A ih =>
    have ha : a ≠ '\r' := fun hh => h (hh ▸ List.mem_cons_self a A)
    have h' : ('\r') ∉ A := fun hh => h (List.mem_cons_of_mem a hh)
    simp [univNewlines_cons_ne a _ ha, ih h']

lemma univNewlines_eq_self (A : PyStr) (h : ('\r') ∉ A) : univNewlines A = A := by
  have := univNewlines_append_no_cr A [] h
  simpa [univNewlines] using this

lemma rstrip_once_concat (x : PyStr) :
    rstrip_once (x ++ [('\n' : Char)]) '\n' = x := by
  simp [rstrip_once]

lemma begins_iff (p s : PyStr) : begins p s = true ↔ s.take p.length = p := by
  simp [begins]

lemma begins_self_append (p r : PyStr) : begins p (p ++ r) = true := by
  simp [begins, List.take_left]

lemma begins_nil_ne (p : PyStr) (hp : p ≠ []) : begins p [] = false := by
  rcases List.exists_cons_of_ne_nil hp with ⟨c, cs, rfl⟩
  simp [begins]

lemma splitOnce_of_begins (p s : PyStr) (hp : p ≠ []) (hb : begins p s = true) :
    splitOnce p s = some ([], s.drop p.length) := by
  cases s with
  | nil => rw [begins_nil_ne p hp] at hb; cases hb
  | cons c cs => rw [splitOnce, if_pos hb]

lemma splitOnce_sound (p : PyStr) :
    ∀ s a b, splitOnce p s = some (a, b) → s = a ++ p ++ b := by
  intro s
  induction s with
  | nil =>
    intro a b h
    by_cases hp : p = ([] : PyStr) <;> simp [splitOnce, hp] at h
    rcases h with ⟨rfl, rfl⟩
    simp [hp]
  | cons c cs ih =>
    intro a b h
    rw [splitOnce] at h
    by_cases hb : begins p (c :: cs) = true
    · rw [if_pos hb] at h
      have htake := (begins_iff p (c :: cs)).mp hb
      simp only [Option.some.injEq, Prod.mk.injEq] at h
      rcases h with ⟨rfl, rfl⟩
      conv_lhs => rw [← List.take_append_drop p.length (c :: cs)]
      rw [htake]
      simp
    · rw [if_neg hb] at h
      cases hrec : splitOnce p cs with
      | none => rw [hrec] at h; exact absurd h (by simp)
      | some pr =>
        rcases pr with ⟨a', b'⟩
        rw [hrec] at h
        simp only [Option.some.injEq, Prod.mk.injEq] at h
        rcases h with ⟨rfl, rfl⟩
        have hs := ih a' b' hrec
        simp [hs]

lemma splitOnce_boundary (p x r : PyStr) (hp : p ≠ [])
    (hno : ∀ i, i < x.length → begins p ((x ++ p ++ r).drop i) = false) :
    splitOnce p (x ++ p ++ r) = some (x, r) := by
  induction x with
  | nil =>
    rw [List.nil_append, splitOnce_of_begins p (p ++ r) hp (begins_self_append p r),
      List.drop_left]
  | cons c x ih =>
    have h0 : begins p (c :: (x ++ (p ++ r))) = false := by
      have := hno 0 (by simp)
      simpa [List.append_assoc] using this
    have hxr : splitOnce p (x ++ p ++ r) = some (x, r) := by
      refine ih (fun i hi => ?_)
      have := hno (i + 1) (by simp [Nat.succ_lt_succ hi])
      simpa using this
    show splitOnce p (c :: (x ++ p ++ r)) = some (c :: x, r)
    rw [splitOnce, if_neg (by simp [h0]), hxr]

/-! ### Lemmas about the ordered-dictionary model -/

lemma alookup_dict_set_self {α : Type} (l : List (PyStr × α)) (k : PyStr) (v : α) :
    alookup (dict_set l k v) k = some v := by
  induction l with
  | nil => simp [dict_set, alookup]
  | cons p rest ih =>
    by_cases h : p.1 = k
    · simp [dict_set, h, alookup]
    · simp [dict_set, h, alookup, ih]

lemma alookup_dict_set_ne {α : Type} (l : List (PyStr × α)) (k k' : PyStr) (v : α)
    (h : k' ≠ k) : alookup (dict_set l k v) k' = alookup l k' := by
  induction l with
  | nil => simp [dict_set, alookup, Ne.symm h]
  | cons p rest ih =>
    by_cases hp : p.1 = k
    · subst hp
      have hne : ¬ (p.1 = k') := fun hh => h hh.symm
      simp [dict_set, alookup, hne]
    · by_cases hpk : p.1 = k'
      · simp only [dict_set, if_neg hp]
        simp [alookup, hpk]
      · simp only [dict_set, if_neg hp]
        simp [alookup, hpk, ih]

lemma mem_dict_set {α : Type} (l : List (PyStr × α)) (k : PyStr) (v : α) :
    ∀ p ∈ dict_set l k v, p ∈ l ∨ p = (k, v) := by
  induction l with
  | nil => intro p hp; simp [dict_set] at hp; exact Or.inr hp
  | cons q rest ih =>
    intro p hp
    by_cases h : q.1 = k
    · rw [dict_set, if_pos h] at hp
      rcases List.mem_cons.mp hp with h1 | h1
      · exact Or.inr h1
      · exact Or.inl (List.mem_cons_of_mem q h1)
    · rw [dict_set, if_neg h] at hp
      rcases List.mem_cons.mp hp with h1 | h1
      · exact Or.inl (h1 ▸ List.mem_cons_self q rest)
      · rcases ih p h1 with h2 | h2
        · exact Or.inl (List.mem_cons_of_mem q h2)
        · exact Or.inr h2

lemma alookup_isSome_iff {α : Type} (l : List (PyStr × α)) (k : PyStr) :
    (alookup l k).isSome = true ↔ k ∈ l.map Prod.fst := by
  induction l with
  | nil => simp [alookup]
  | cons p rest ih =>
    rw [List.map_cons]
    by_cases h : p.1 = k
    · rw [alookup, if_pos h]
      constructor
      · intro _
        exact h ▸ List.mem_cons_self p.1 (rest.map Prod.fst)
      · intro _
        rfl
    · rw [alookup, if_neg h, List.mem_cons]
      constructor
      · intro hh
        exact Or.inr (ih.mp hh)
      · intro hh
        rcases hh with hh | hh
        · exact absurd hh.symm h
        · exact ih.mpr hh

lemma alookup_eq_none_of_not_mem {α : Type} (l : List (PyStr × α)) (k : PyStr)
    (h : k ∉ l.map Prod.fst) : alookup l k = none := by
  induction l with
  | nil => rfl
  | cons p rest ih =>
    have h1 : ¬ p.1 = k := fun hh =>
      h (by rw [List.map_cons, hh]; exact List.mem_cons_self k (rest.map Prod.fst))
    have h2 : k ∉ rest.map Prod.fst := fun hh =>
      h (by rw [List.map_cons]; exact List.mem_cons_of_mem p.1 hh)
    rw [alookup, if_neg h1]
    exact ih h2

lemma alookup_filter_none {α : Type} (l : List (PyStr × α)) (q : PyStr × α → Bool)
    (k : PyStr) (h : alookup l k = none) : alookup (l.filter q) k = none := by
  induction l with
  | nil => simp [alookup]
  | cons p rest ih =>
    rw [alookup] at h
    by_cases hp : p.1 = k
    · rw [if_pos hp] at h; exact absurd h (by simp)
    · rw [if_neg hp] at h
      rw [List.filter_cons]
      by_cases hq : q p = true
      · rw [if_pos hq, alookup, if_neg hp]; exact ih h
      · rw [if_neg hq]; exact ih h

lemma alookup_filter_of_nodup {α : Type} (l : List (PyStr × α)) (q : PyStr × α → Bool)
    (k : PyStr) (v : α) (hnd : (l.map Prod.fst).Nodup)
    (hl : alookup l k = some v) (hq : q (k, v) = true) :
    alookup (l.filter q) k = some v := by
  induction l with
  | nil => simp [alookup] at hl
  | cons p rest ih =>
    have hnd' : (rest.map Prod.fst).Nodup := (List.nodup_cons.mp hnd).2
    by_cases h : p.1 = k
    · rw [alookup, if_pos h] at hl
      have hp : p = (k, v) := Prod.ext h (by injection hl)
      subst hp
      rw [List.filter_cons, if_pos hq, alookup]
      simp
    · rw [alookup, if_neg h] at hl
      rw [List.filter_cons]
      by_cases hqp : q p = true
      · rw [if_pos hqp, alookup, if_neg h]
        exact ih hnd' hl
      · rw [if_neg hqp]
        exact ih hnd' hl

lemma alookup_filter_dropped_of_nodup {α : Type} (l : List (PyStr × α))
    (q : PyStr × α → Bool) (k : PyStr) (v : α) (hnd : (l.map Prod.fst).Nodup)
    (hl : alookup l k = some v) (hq : q (k, v) = false) :
    alookup (l.filter q) k = none := by
  induction l with
  | nil => simp [alookup] at hl
  | cons p rest ih =>
    have hnd' : (rest.map Prod.fst).Nodup := (List.nodup_cons.mp hnd).2
    by_cases h : p.1 = k
    · rw [alookup, if_pos h] at hl
      have hp : p = (k, v) := Prod.ext h (by injection hl)
      subst hp
      rw [List.filter_cons, if_neg (by simp [hq])]
      have hk : k ∉ (rest.map Prod.fst) := (List.nodup_cons.mp hnd).1
      exact alookup_filter_none rest q k (alookup_eq_none_of_not_mem rest k hk)
    · rw [alookup, if_neg h] at hl
      rw [List.filter_cons]
      by_cases hqp : q p = true
      · rw [if_pos hqp, alookup, if_neg h]
        exact ih hnd' hl
      · rw [if_neg hqp]
        exact ih hnd' hl

/-! ### Lemmas about the directory-index sync loop -/

lemma discover_noop (fs : FS) (names visited : List PyStr)
    (cache : List (PyStr × PyStr)) (n : Nat)
    (h : ∀ f ∈ names, isLogName f = true → f ∈ visited) :
    discover_go fs names visited cache n = some (visited, cache, n) := by
  induction names with
  | nil => rfl
  | cons f rest ih =>
    have h' : ∀ g ∈ rest, isLogName g = true → g ∈ visited :=
      fun g hg => h g (List.mem_cons_of_mem f hg)
    by_cases hlog : isLogName f = true
    · have hv : f ∈ visited := h f (List.mem_cons_self f rest) hlog
      rw [discover_go, if_neg (by simp [hlog]), if_pos hv]
      exact ih h'
    · rw [discover_go, if_pos (by simpa using hlog)]
      exact ih h'

lemma discover_vis_mono (fs : FS) (names : List PyStr) :
    ∀ visited cache n visited' cache' n',
      discover_go fs names visited cache n = some (visited', cache', n') →
      ∀ f ∈ visited, f ∈ visited' := by
  induction names with
  | nil =>
    intro visited cache n visited' cache' n' h f hf
    rw [discover_go] at h
    simp only [Option.some.injEq, Prod.mk.injEq] at h
    exact h.1 ▸ hf
  | cons g rest ih =>
    intro visited cache n visited' cache' n' h f hf
    rw [discover_go] at h
    by_cases hlog : isLogName g = false
    · rw [if_pos hlog] at h
      exact ih _ _ _ _ _ _ h f hf
    · rw [if_neg hlog] at h
      by_cases hv : g ∈ visited
      · rw [if_pos hv] at h
        exact ih _ _ _ _ _ _ h f hf
      · rw [if_neg hv] at h
        cases hext : extract_history_entry fs g with
        | none => rw [hext] at h; exact absurd h (by simp)
        | some e? =>
          cases e? with
          | none =>
            rw [hext] at h
            exact ih _ _ _ _ _ _ h f (List.mem_cons_of_mem g hf)
          | some e =>
            rw [hext] at h
            exact ih _ _ _ _ _ _ h f (List.mem_cons_of_mem g hf)

lemma discover_vis_all_log (fs : FS) (names : List PyStr) :
    ∀ visited cache n visited' cache' n',
      discover_go fs names visited cache n = some (visited', cache', n') →
      ∀ f ∈ names, isLogName f = true → f ∈ visited' := by
  induction names with
  | nil =>
    intro visited cache n visited' cache' n' h f hf
    exact absurd hf (List.not_mem_nil f)
  | cons g rest ih =>
    intro visited cache n visited' cache' n' h f hf hlogf
    rw [discover_go] at h
    rcases List.mem_cons.mp hf with rfl | hf'
    · rw [if_neg (by simp [hlogf])] at h
      by_cases hv : f ∈ visited
      · rw [if_pos hv] at h
        exact discover_vis_mono fs rest _ _ _ _ _ _ h f hv
      · rw [if_neg hv] at h
        cases hext : extract_history_entry fs f with
        | none => rw [hext] at h; exact absurd h (by simp)
        | some e? =>
          cases e? with
          | none =>
            rw [hext] at h
            exact discover_vis_mono fs rest _ _ _ _ _ _ h f (List.mem_cons_self f _)
          | some e =>
            rw [hext] at h
            exact discover_vis_mono fs rest _ _ _ _ _ _ h f (List.mem_cons_self f _)
    · by_cases hlog : isLogName g = false
      · rw [if_pos hlog] at h
        exact ih _ _ _ _ _ _ h f hf' hlogf
      · rw [if_neg hlog] at h
        by_cases hv : g ∈ visited
        · rw [if_pos hv] at h
          exact ih _ _ _ _ _ _ h f hf' hlogf
        · rw [if_neg hv] at h
          cases hext : extract_history_entry fs g with
          | none => rw [hext] at h; exact absurd h (by simp)
          | some e? =>
            cases e? with
            | none =>
              rw [hext] at h
              exact ih _ _ _ _ _ _ h f hf' hlogf
            | some e =>
              rw [hext] at h
              exact ih _ _ _ _ _ _ h f hf' hlogf

lemma discover_cache_from (fs : FS) (names : List PyStr) :
    ∀ visited cache n visited' cache' n',
      discover_go fs names visited cache n = some (visited', cache', n') →
      ∀ p ∈ cache', p ∈ cache ∨ p.2 ∈ names := by
  induction names with
  | nil =>
    intro visited cache n visited' cache' n' h p hp
    rw [discover_go] at h
    simp only [Option.some.injEq, Prod.mk.injEq] at h
    exact Or.inl (h.2.1 ▸ hp)
  | cons g rest ih =>
    intro visited cache n visited' cache' n' h p hp
    rw [discover_go] at h
    by_cases hlog : isLogName g = false
    · rw [if_pos hlog] at h
      rcases ih _ _ _ _ _ _ h p hp with h1 | h1
      · exact Or.inl h1
      · exact Or.inr (List.mem_cons_of_mem g h1)
    · rw [if_neg hlog] at h
      by_cases hv : g ∈ visited
      · rw [if_pos hv] at h
        rcases ih _ _ _ _ _ _ h p hp with h1 | h1
        · exact Or.inl h1
        · exact Or.inr (List.mem_cons_of_mem g h1)
      · rw [if_neg hv] at h
        cases hext : extract_history_entry fs g with
        | none => rw [hext] at h; exact absurd h (by simp)
        | some e? =>
          cases e? with
          | none =>
            rw [hext] at h
            rcases ih _ _ _ _ _ _ h p hp with h1 | h1
            · exact Or.inl h1
            · exact Or.inr (List.mem_cons_of_mem g h1)
          | some e =>
            rw [hext] at h
            rcases ih _ _ _ _ _ _ h p hp with h1 | h1
            · rcases mem_dict_set cache e.id g p h1 with h2 | h2
              · exact Or.inl h2
              · exact Or.inr (h2 ▸ List.mem_cons_self g rest)
            · exact Or.inr (List.mem_cons_of_mem g h1)

lemma discover_lookup_none (fs : FS) (x : PyStr) (names : List PyStr) :
    ∀ visited cache n visited' cache' n',
      discover_go fs names visited cache n = some (visited', cache', n') →
      alookup cache x = none →
      (∀ f ∈ names, isLogName f = true → f ∉ visited →
        ∀ e, extract_history_entry fs f = some (some e) → e.id ≠ x) →
      alookup cache' x = none := by
  induction names with
  | nil =>
    intro visited cache n visited' cache' n' h hnone _
    rw [discover_go] at h
    simp only [Option.some.injEq, Prod.mk.injEq] at h
    exact h.2.1 ▸ hnone
  | cons g rest ih =>
    intro visited cache n visited' cache' n' h hnone hids
    have hids' : ∀ f ∈ rest, isLogName f = true → f ∉ visited →
        ∀ e, extract_history_entry fs f = some (some e) → e.id ≠ x :=
      fun f hf => hids f (List.mem_cons_of_mem g hf)
    rw [discover_go] at h
    by_cases hlog : isLogName g = false
    · rw [if_pos hlog] at h
      exact ih _ _ _ _ _ _ h hnone hids'
    · rw [if_neg hlog] at h
      by_cases hv : g ∈ visited
      · rw [if_pos hv] at h
        exact ih _ _ _ _ _ _ h hnone hids'
      · rw [if_neg hv] at h
        have hids'' : ∀ f ∈ rest, isLogName f = true → f ∉ g :: visited →
            ∀ e, extract_history_entry fs f = some (some e) → e.id ≠ x :=
          fun f hf hlf hgv => hids' f hf hlf (fun hmem => hgv (List.mem_cons_of_mem g hmem))
        cases hext : extract_history_entry fs g with
        | none => rw [hext] at h; exact absurd h (by simp)
        | some e? =>
          cases e? with
          | none =>
            rw [hext] at h
            exact ih _ _ _ _ _ _ h hnone hids''
          | some e =>
            rw [hext] at h
            have hne : e.id ≠ x :=
              hids g (List.mem_cons_self g rest) (by simpa using hlog) hv e hext
            have : alookup (dict_set cache e.id g) x = none := by
              rw [alookup_dict_set_ne cache e.id x g (fun hh => hne hh.symm)]
              exact hnone
            exact ih _ _ _ _ _ _ h this hids''

lemma discover_total (fs : FS) (names : List PyStr) :
    ∀ visited cache n,
      (∀ f ∈ names, isLogName f = true → f ∉ visited →
        extract_history_entry fs f ≠ none) →
      (discover_go fs names visited cache n).isSome = true := by
  induction names with
  | nil => intro visited cache n _; rw [discover_go]; rfl
  | cons g rest ih =>
    intro visited cache n hok
    have hok' : ∀ f ∈ rest, isLogName f = true → f ∉ visited →
        extract_history_entry fs f ≠ none :=
      fun f hf => hok f (List.mem_cons_of_mem g hf)
    rw [discover_go]
    by_cases hlog : isLogName g = false
    · rw [if_pos hlog]
      exact ih _ _ _ hok'
    · rw [if_neg hlog]
      by_cases hv : g ∈ visited
      · rw [if_pos hv]
        exact ih _ _ _ hok'
      · rw [if_neg hv]
        have hok'' : ∀ f ∈ rest, isLogName f = true → f ∉ g :: visited →
            extract_history_entry fs f ≠ none :=
          fun f hf hlf hgv => hok' f hf hlf (fun hmem => hgv (List.mem_cons_of_mem g hmem))
        cases hext : extract_history_entry fs g with
        | none =>
          exact absurd hext (hok g (List.mem_cons_self g rest) (by simpa using hlog) hv)
        | some e? =>
          cases e? with
          | none => exact ih _ _ _ hok''
          | some e => exact ih _ _ _ hok''

/-! ### Lemmas about `_renew_files_cache` -/

lemma renew_count_eq (st : LogState) (st' : LogState)
    (h : renew_files_cache st = some st') :
    ∃ n, renew_files_cache_count st = some (st', n) := by
  rw [renew_files_cache] at h
  cases hc : renew_files_cache_count st with
  | none => rw [hc] at h; exact absurd h (by simp)
  | some pr =>
    rw [hc] at h
    have h1 : pr.1 = st' := by simpa using h
    refine ⟨pr.2, ?_⟩
    subst h1
    rfl

lemma renew_count_spec (st : LogState) (st' : LogState) (n : Nat)
    (h : renew_files_cache_count st = some (st', n)) :
    discover_go st.fs (st.fs.map Prod.fst) st.visited
        (st.cache.filter (fun p => (alookup st.fs p.2).isSome)) 0 =
      some (st'.visited, st'.cache, n) ∧ st'.fs = st.fs := by
  rw [renew_files_cache_count] at h
  cases hd : discover_go st.fs (st.fs.map Prod.fst) st.visited
      (st.cache.filter (fun p => (alookup st.fs p.2).isSome)) 0 with
  | none => rw [hd] at h; exact absurd h (by simp)
  | some tr =>
    rw [hd] at h
    simp only [Option.some.injEq, Prod.mk.injEq] at h
    rcases h with ⟨hst, hn⟩
    subst hst
    subst hn
    exact ⟨rfl, rfl⟩

lemma renew_fs_eq (st st' : LogState) (h : renew_files_cache st = some st') :
    st'.fs = st.fs := by
  rcases renew_count_eq st st' h with ⟨n, hc⟩
  exact (renew_count_spec st st' n hc).2

lemma renew_visited_mono (st st' : LogState) (h : renew_files_cache st = some st') :
    ∀ f ∈ st.visited, f ∈ st'.visited := by
  rcases renew_count_eq st st' h with ⟨n, hc⟩
  rcases renew_count_spec st st' n hc with ⟨hd, _⟩
  exact fun f hf => discover_vis_mono st.fs _ _ _ _ _ _ _ hd f hf

lemma renew_visited_all_log (st st' : LogState) (h : renew_files_cache st = some st') :
    ∀ f ∈ st.fs.map Prod.fst, isLogName f = true → f ∈ st'.visited := by
  rcases renew_count_eq st st' h with ⟨n, hc⟩
  rcases renew_count_spec st st' n hc with ⟨hd, _⟩
  exact fun f hf hlog => discover_vis_all_log st.fs _ _ _ _ _ _ _ hd f hf hlog

lemma renew_cache_exists (st st' : LogState) (h : renew_files_cache st = some st') :
    ∀ p ∈ st'.cache, (alookup st.fs p.2).isSome = true := by
  rcases renew_count_eq st st' h with ⟨n, hc⟩
  rcases renew_count_spec st st' n hc with ⟨hd, _⟩
  intro p hp
  rcases discover_cache_from st.fs _ _ _ _ _ _ _ hd p hp with h1 | h1
  · exact (List.mem_filter.mp h1).2
  · exact (alookup_isSome_iff st.fs p.2).mpr h1

lemma renew_total (st : LogState)
    (hok : ∀ f ∈ st.fs.map Prod.fst, isLogName f = true → f ∉ st.visited →
      extract_history_entry st.fs f ≠ none) :
    (renew_files_cache st).isSome = true := by
  rw [renew_files_cache, renew_files_cache_count]
  have := discover_total st.fs (st.fs.map Prod.fst) st.visited
    (st.cache.filter (fun p => (alookup st.fs p.2).isSome)) 0 hok
  cases hd : discover_go st.fs (st.fs.map Prod.fst) st.visited
      (st.cache.filter (fun p => (alookup st.fs p.2).isSome)) 0 with
  | none => rw [hd] at this; exact absurd this (by simp)
  | some tr => rfl

/-- Second `sync` after a successful one: the prune pass keeps everything and
the discovery pass skips everything, so the state is unchanged and the parse
counter stays at zero. -/
lemma renew_idempotent (st st1 : LogState) (h : renew_files_cache st = some st1) :
    renew_files_cache_count st1 = some (st1, 0) := by
  have hfs : st1.fs = st.fs := renew_fs_eq st st1 h
  have hfilter : st1.cache.filter (fun p => (alookup st1.fs p.2).isSome) = st1.cache := by
    rw [List.filter_eq_self]
    intro p hp
    rw [hfs]
    exact renew_cache_exists st st1 h p hp
  have hnoop : discover_go st1.fs (st1.fs.map Prod.fst) st1.visited st1.cache 0 =
      some (st1.visited, st1.cache, 0) := by
    refine discover_noop st1.fs _ _ _ _ (fun f hf hlog => ?_)
    rw [hfs] at hf
    exact renew_visited_all_log st st1 h f hf hlog
  rw [renew_files_cache_count, hfilter, hnoop]

/-! ### Lemmas about `_read_parameters_text` -/

lemma read_parameters_go_no_marker (lines : List PyStr) :
    ∀ acc, (∀ l ∈ lines, rstrip_once l '\n' ≠ MARKER) →
      read_parameters_go lines acc = (false, acc ++ lines.flatten) := by
  induction lines with
  | nil => intro acc _; simp [read_parameters_go]
  | cons l ls ih =>
    intro acc h
    have hl : rstrip_once l '\n' ≠ MARKER := h l (List.mem_cons_self l ls)
    rw [read_parameters_go, if_neg hl, ih (acc ++ l) (fun g hg => h g (List.mem_cons_of_mem l hg))]
    simp

lemma read_parameters_go_found (pre : List PyStr) :
    ∀ acc rest, (∀ l ∈ pre, rstrip_once l '\n' ≠ MARKER) →
      read_parameters_go (pre ++ (MARKER ++ [('\n' : Char)]) :: rest) acc =
        (true, acc ++ pre.flatten) := by
  induction pre with
  | nil =>
    intro acc rest _
    rw [List.nil_append, read_parameters_go, if_pos (by rw [rstrip_once_concat])]
    simp
  | cons l ls ih =>
    intro acc rest h
    have hl : rstrip_once l '\n' ≠ MARKER := h l (List.mem_cons_self l ls)
    rw [List.cons_append, read_parameters_go, if_neg hl,
      ih (acc ++ l) rest (fun g hg => h g (List.mem_cons_of_mem l hg))]
    simp

/-! ### Character classes and the field-line pattern -/

lemma word_not_break (c : Char) (h : isWordChar c = true) : isLineBreakChar c = false := by
  cases hb : isLineBreakChar c
  · rfl
  · exfalso
    simp only [isLineBreakChar, Bool.or_eq_true, decide_eq_true_eq] at hb
    rcases hb with ((((((((h1 | h1) | h1) | h1) | h1) | h1) | h1) | h1) | h1) | h1 <;>
      (subst h1; exact absurd h (by decide))

lemma takeWhile_all_append (p : Char → Bool) (k : PyStr) :
    ∀ (a : Char) (t : PyStr), (∀ c ∈ k, p c = true) → p a = false →
      (k ++ a :: t).takeWhile p = k ∧ (k ++ a :: t).dropWhile p = a :: t := by
  induction k with
  | nil =>
    intro a t _ ha
    simp [List.takeWhile_cons, List.dropWhile_cons, ha]
  | cons c k ih =>
    intro a t hk ha
    have hc : p c = true := hk c (List.mem_cons_self c k)
    have hk' : ∀ d ∈ k, p d = true := fun d hd => hk d (List.mem_cons_of_mem c hd)
    have := ih a t hk' ha
    simp [List.takeWhile_cons, List.dropWhile_cons, hc, this.1, this.2]

lemma matchFieldLine_field (k s0 : PyStr) (hk : k ≠ [])
    (hkw : ∀ c ∈ k, isWordChar c = true) (hs0 : ('\n') ∉ s0) :
    matchFieldLine (k ++ (':') :: (s0 ++ [('\n' : Char)])) =
      some (k, s0 ++ [('\n' : Char)]) := by
  have hB := takeWhile_all_append isWordChar k ':' (s0 ++ [('\n' : Char)]) hkw (by decide)
  simp only [matchFieldLine, hB.1, hB.2]
  rw [if_pos ?h]
  case h =>
    refine ⟨hk, ?_, ?_⟩
    · rw [List.getLast?_concat]
    · rw [List.dropLast_concat]
      exact hs0

/-! ### `splitOnChar` and `joinSep` -/

lemma splitOnChar_ne_nil (c : Char) (v : PyStr) : splitOnChar c v ≠ [] := by
  cases v with
  | nil => simp [splitOnChar]
  | cons a rest =>
    rw [splitOnChar]
    by_cases h : a = c
    · simp [h]
    · rw [if_neg h]
      cases splitOnChar c rest with
      | nil => simp [consFirst]
      | cons l ls => simp [consFirst]

lemma joinSep_cons_cons (c : Char) (s : PyStr) (l : PyStr) (ls : List PyStr) :
    joinSep c (s :: l :: ls) = s ++ c :: joinSep c (l :: ls) := rfl

lemma joinSep_splitOnChar (c : Char) (v : PyStr) :
    joinSep c (splitOnChar c v) = v := by
  induction v with
  | nil => rfl
  | cons a rest ih =>
    rw [splitOnChar]
    by_cases h : a = c
    · rw [if_pos h]
      rcases hs : splitOnChar c rest with _ | ⟨l, ls⟩
      · exact absurd hs (splitOnChar_ne_nil c rest)
      · rw [joinSep_cons_cons, ← hs, ih, h]
        simp
    · rw [if_neg h]
      rcases hs : splitOnChar c rest with _ | ⟨l, ls⟩
      · exact absurd hs (splitOnChar_ne_nil c rest)
      · rw [hs] at ih
        rw [consFirst_cons]
        cases ls with
        | nil =>
          have : joinSep c [l] = l := rfl
          rw [this] at ih
          show (a :: l) = a :: rest
          rw [ih]
        | cons l2 ls2 =>
          rw [joinSep_cons_cons] at ih
          rw [joinSep_cons_cons]
          show a :: (l ++ c :: joinSep c (l2 :: ls2)) = a :: rest
          rw [ih]

lemma splitOnChar_no_sep (c : Char) (v : PyStr) :
    ∀ s ∈ splitOnChar c v, c ∉ s := by
  induction v with
  | nil =>
    intro s hs
    simp [splitOnChar] at hs
    simp [hs]
  | cons a rest ih =>
    intro s hs
    rw [splitOnChar] at hs
    by_cases h : a = c
    · rw [if_pos h] at hs
      rcases List.mem_cons.mp hs with rfl | hs'
      · simp
      · exact ih s hs'
    · rw [if_neg h] at hs
      rcases hl : splitOnChar c rest with _ | ⟨l, ls⟩
      · exact absurd hl (splitOnChar_ne_nil c rest)
      · rw [hl, consFirst_cons] at hs
        rcases List.mem_cons.mp hs with rfl | hs'
        · intro hmem
          rcases List.mem_cons.mp hmem with h1 | h1
          · exact h h1.symm
          · exact ih l (hl ▸ List.mem_cons_self l ls) h1
        · exact ih s (hl ▸ List.mem_cons_of_mem l hs')

lemma splitOnChar_chars (c : Char) (v : PyStr) :
    ∀ s ∈ splitOnChar c v, ∀ ch ∈ s, ch ∈ v := by
  induction v with
  | nil =>
    intro s hs
    simp [splitOnChar] at hs
    simp [hs]
  | cons a rest ih =>
    intro s hs ch hch
    rw [splitOnChar] at hs
    by_cases h : a = c
    · rw [if_pos h] at hs
      rcases List.mem_cons.mp hs with rfl | hs'
      · exact absurd hch (List.not_mem_nil ch)
      · exact List.mem_cons_of_mem a (ih s hs' ch hch)
    · rw [if_neg h] at hs
      rcases hl : splitOnChar c rest with _ | ⟨l, ls⟩
      · exact absurd hl (splitOnChar_ne_nil c rest)
      · rw [hl, consFirst_cons] at hs
        rcases List.mem_cons.mp hs with rfl | hs'
        · rcases List.mem_cons.mp hch with h1 | h1
          · exact h1 ▸ List.mem_cons_self a rest
          · exact List.mem_cons_of_mem a (ih l (hl ▸ List.mem_cons_self l ls) ch h1)
        · exact List.mem_cons_of_mem a (ih s (hl ▸ List.mem_cons_of_mem l hs') ch hch)

/-! ### Splitting an encoded header into its physical lines -/

lemma splitLinesKeep_joined (srest : List PyStr) :
    ∀ (s0 pre rest : PyStr),
      (∀ c ∈ pre, isLineBreakChar c = false) →
      (∀ c ∈ s0, isLineBreakChar c = false) →
      (∀ s ∈ srest, ∀ c ∈ s, isLineBreakChar c = false) →
      splitLinesKeep (pre ++ joinSep '\n' (s0 :: srest) ++ ('\n') :: rest) =
        ((pre ++ s0) ++ [('\n' : Char)]) ::
          (srest.map (fun s => s ++ [('\n' : Char)]) ++ splitLinesKeep rest) := by
  induction srest with
  | nil =>
    intro s0 pre rest hpre hs0 _
    have hfree : ∀ c ∈ pre ++ s0, isLineBreakChar c = false := by
      intro c hc
      rcases List.mem_append.mp hc with h | h
      · exact hpre c h
      · exact hs0 c h
    have : joinSep '\n' [s0] = s0 := rfl
    rw [this, splitLinesKeep_append_line (pre ++ s0) rest hfree]
    simp
  | cons s1 srest' ih =>
    intro s0 pre rest hpre hs0 hrest
    have hs1 : ∀ c ∈ s1, isLineBreakChar c = false :=
      hrest s1 (List.mem_cons_self s1 srest')
    have hrest' : ∀ s ∈ srest', ∀ c ∈ s, isLineBreakChar c = false :=
      fun s hs => hrest s (List.mem_cons_of_mem s1 hs)
    have hfree : ∀ c ∈ pre ++ s0, isLineBreakChar c = false := by
      intro c hc
      rcases List.mem_append.mp hc with h | h
      · exact hpre c h
      · exact hs0 c h
    rw [joinSep_cons_cons]
    have hassoc :
        pre ++ (s0 ++ ('\n') :: joinSep '\n' (s1 :: srest')) ++ ('\n') :: rest =
          (pre ++ s0) ++ ('\n') :: (joinSep '\n' (s1 :: srest') ++ ('\n') :: rest) := by
      simp [List.append_assoc]
    rw [hassoc, splitLinesKeep_append_line (pre ++ s0) _ hfree]
    have ih' := ih s1 [] rest (by intro c hc; exact absurd hc (List.not_mem_nil c)) hs1 hrest'
    rw [List.nil_append] at ih'
    rw [ih']
    simp

/-- The physical lines of an encoded header are the per-field lines. -/
lemma splitLinesKeep_fields_text (pairs : List (PyStr × PyStr))
    (h : ∀ p ∈ pairs, goodKey p.1 = true ∧ goodValue p.2 = true) :
    splitLinesKeep (fields_text pairs) = fields_lines pairs := by
  induction pairs with
  | nil => rfl
  | cons kv pairs' ih =>
    rcases kv with ⟨k, v⟩
    have hk : goodKey k = true := (h (k, v) (List.mem_cons_self _ _)).1
    have hv : goodValue v = true := (h (k, v) (List.mem_cons_self _ _)).2
    have h' : ∀ p ∈ pairs', goodKey p.1 = true ∧ goodValue p.2 = true :=
      fun p hp => h p (List.mem_cons_of_mem _ hp)
    have hkw : ∀ c ∈ k, isWordChar c = true := by
      intro c hc
      have := (Bool.and_eq_true _ _).mp hk
      exact List.all_eq_true.mp this.2 c hc
    have hkfree : ∀ c ∈ k ++ [(':' : Char)], isLineBreakChar c = false := by
      intro c hc
      rcases List.mem_append.mp hc with hcm | hcm
      · exact word_not_break c (hkw c hcm)
      · rcases List.mem_singleton.mp hcm with rfl
        decide
    have hsegchar : ∀ s ∈ splitOnChar '\n' v, ∀ c ∈ s, isLineBreakChar c = false := by
      intro s hs c hc
      have hnl : c ≠ '\n' := by
        intro hh
        exact splitOnChar_no_sep '\n' v s hs (hh ▸ hc)
      have hcv : c ∈ v := splitOnChar_chars '\n' v s hs c hc
      have := (Bool.and_eq_true _ _).mp hv
      have := List.all_eq_true.mp this.1 c hcv
      simp only [Bool.or_eq_true, decide_eq_true_eq, Bool.not_eq_true'] at this
      rcases this with h1 | h1
      · exact absurd h1 hnl
      · exact h1
    rcases hsegs : splitOnChar '\n' v with _ | ⟨s0, srest⟩
    · exact absurd hsegs (splitOnChar_ne_nil '\n' v)
    · have hs0 : ∀ c ∈ s0, isLineBreakChar c = false :=
        fun c hc => hsegchar s0 (hsegs ▸ List.mem_cons_self s0 srest) c hc
      have hsrest : ∀ s ∈ srest, ∀ c ∈ s, isLineBreakChar c = false :=
        fun s hs c hc => hsegchar s (hsegs ▸ List.mem_cons_of_mem s0 hs) c hc
      have hvjoin : v = joinSep '\n' (s0 :: srest) := by
        rw [← hsegs, joinSep_splitOnChar]
      have htext : fields_text ((k, v) :: pairs') =
          (k ++ [(':' : Char)]) ++ joinSep '\n' (s0 :: srest) ++
            ('\n') :: fields_text pairs' := by
        show encode_field k v ++ fields_text pairs' = _
        rw [encode_field, os_linesep, hvjoin]
        simp [List.append_assoc]
      rw [htext,
        splitLinesKeep_joined srest s0 (k ++ [(':' : Char)]) (fields_text pairs')
          hkfree hs0 hsrest, ih h']
      show (((k ++ [(':' : Char)]) ++ s0) ++ [('\n' : Char)]) ::
          (srest.map (fun s => s ++ [('\n' : Char)]) ++ fields_lines pairs') =
        fields_lines ((k, v) :: pairs')
      have hfl : fields_lines ((k, v) :: pairs') =
          field_lines k (s0 :: srest) ++ fields_lines pairs' := by
        rw [fields_lines, List.map_cons, List.flatten_cons, hsegs]
        rfl
      rw [hfl, field_lines]
      simp [List.append_assoc]

/-! ### The streaming parse of the header lines -/

lemma php_go_continuations (conts : List PyStr) :
    ∀ (k vacc : PyStr) (ps : List (PyStr × PyStr)) (rest : List PyStr),
      (∀ l ∈ conts, matchFieldLine l = none) →
      parse_history_parameters_go (conts ++ rest) (some (k, vacc)) ps =
        parse_history_parameters_go rest (some (k, vacc ++ conts.flatten)) ps := by
  induction conts with
  | nil => intro k vacc ps rest _; simp
  | cons l conts' ih =>
    intro k vacc ps rest h
    have hl : matchFieldLine l = none := h l (List.mem_cons_self l conts')
    have h' : ∀ g ∈ conts', matchFieldLine g = none :=
      fun g hg => h g (List.mem_cons_of_mem l hg)
    rw [List.cons_append, parse_history_parameters_go, hl]
    rw [ih (k) (vacc ++ l) ps rest h']
    simp

lemma php_go_field (k s0 : PyStr) (srest : List PyStr) (ps : List (PyStr × PyStr))
    (cur : Option (PyStr × PyStr)) (rest : List PyStr)
    (hk : k ≠ []) (hkw : ∀ c ∈ k, isWordChar c = true) (hs0 : ('\n') ∉ s0)
    (hconts : ∀ s ∈ srest, matchFieldLine (s ++ [('\n' : Char)]) = none) :
    parse_history_parameters_go (field_lines k (s0 :: srest) ++ rest) cur ps =
      parse_history_parameters_go rest
        (some (k, joinSep '\n' (s0 :: srest) ++ [('\n' : Char)])) (flush_param cur ps) := by
  have hcl : ∀ l ∈ srest.map (fun s => s ++ [('\n' : Char)]), matchFieldLine l = none := by
    intro l hl
    rcases List.mem_map.mp hl with ⟨s, hs, rfl⟩
    exact hconts s hs
  have hjoin : ∀ (srest' : List PyStr) (s0' : PyStr),
      s0' ++ [('\n' : Char)] ++ (srest'.map (fun s => s ++ [('\n' : Char)])).flatten =
        joinSep '\n' (s0' :: srest') ++ [('\n' : Char)] := by
    intro srest'
    induction srest' with
    | nil => intro s0'; simp [joinSep]
    | cons s1 srest'' ih =>
      intro s0'
      rw [joinSep_cons_cons]
      have h1 := ih s1
      simp only [List.map_cons, List.flatten_cons]
      calc s0' ++ [('\n' : Char)] ++
            ((s1 ++ [('\n' : Char)]) ++ (srest''.map (fun s => s ++ [('\n' : Char)])).flatten)
          = s0' ++ [('\n' : Char)] ++ (joinSep '\n' (s1 :: srest'') ++ [('\n' : Char)]) := by
            rw [h1]
        _ = s0' ++ ('\n') :: joinSep '\n' (s1 :: srest'') ++ [('\n' : Char)] := by
            simp [List.append_assoc]
  cases cur with
  | none =>
    rw [field_lines, List.cons_append, parse_history_parameters_go,
      matchFieldLine_field k s0 hk hkw hs0]
    show parse_history_parameters_go
        (srest.map (fun s => s ++ [('\n' : Char)]) ++ rest)
        (some (k, s0 ++ [('\n' : Char)])) ps = _
    rw [php_go_continuations _ _ _ _ _ hcl, hjoin srest s0]
    rfl
  | some kv0 =>
    rw [field_lines, List.cons_append, parse_history_parameters_go,
      matchFieldLine_field k s0 hk hkw hs0]
    show parse_history_parameters_go
        (srest.map (fun s => s ++ [('\n' : Char)]) ++ rest)
        (some (k, s0 ++ [('\n' : Char)]))
        (dict_set ps kv0.1 (rstrip_once kv0.2 '\n')) = _
    rw [php_go_continuations _ _ _ _ _ hcl, hjoin srest s0]
    rfl

lemma php_go_fields (pairs : List (PyStr × PyStr)) :
    ∀ (cur : Option (PyStr × PyStr)) (ps : List (PyStr × PyStr)),
      (∀ p ∈ pairs, goodKey p.1 = true ∧ goodValue p.2 = true) →
      parse_history_parameters_go (fields_lines pairs) cur ps =
        some (insertAll (flush_param cur ps) pairs) := by
  induction pairs with
  | nil =>
    intro cur ps _
    cases cur with
    | none => rfl
    | some kv => rfl
  | cons kv pairs' ih =>
    rcases kv with ⟨k, v⟩
    intro cur ps h
    have hk : goodKey k = true := (h (k, v) (List.mem_cons_self _ _)).1
    have hv : goodValue v = true := (h (k, v) (List.mem_cons_self _ _)).2
    have h' : ∀ p ∈ pairs', goodKey p.1 = true ∧ goodValue p.2 = true :=
      fun p hp => h p (List.mem_cons_of_mem _ hp)
    have hkne : k ≠ [] := by
      have := ((Bool.and_eq_true _ _).mp hk).1
      simpa using this
    have hkw : ∀ c ∈ k, isWordChar c = true :=
      List.all_eq_true.mp ((Bool.and_eq_true _ _).mp hk).2
    rcases hsegs : splitOnChar '\n' v with _ | ⟨s0, srest⟩
    · exact absurd hsegs (splitOnChar_ne_nil '\n' v)
    · have hs0 : ('\n') ∉ s0 :=
        splitOnChar_no_sep '\n' v s0 (hsegs ▸ List.mem_cons_self s0 srest)
      have hconts : ∀ s ∈ srest, matchFieldLine (s ++ [('\n' : Char)]) = none := by
        intro s hs
        have htail := ((Bool.and_eq_true _ _).mp hv).2
        have : contLineOk s = true := by
          refine List.all_eq_true.mp htail s ?_
          rw [hsegs]
          simpa using hs
        simpa [contLineOk, Option.isNone_iff_eq_none] using this
      have hflines : fields_lines ((k, v) :: pairs') =
          field_lines k (s0 :: srest) ++ fields_lines pairs' := by
        rw [fields_lines, List.map_cons, List.flatten_cons, hsegs]
        rfl
      rw [hflines, php_go_field k s0 srest ps cur (fields_lines pairs') hkne hkw hs0 hconts,
        ih _ _ h']
      have hval : rstrip_once (joinSep '\n' (s0 :: srest) ++ [('\n' : Char)]) '\n' =
          joinSep '\n' (s0 :: srest) := rstrip_once_concat _
      have hjv : joinSep '\n' (s0 :: srest) = v := by
        rw [← hsegs, joinSep_splitOnChar]
      show some (insertAll (dict_set (flush_param cur ps) k
          (rstrip_once (joinSep '\n' (s0 :: srest) ++ [('\n' : Char)]) '\n')) pairs') = _
      rw [hval, hjv]
      rfl

/-- Decoding an encoded header parses every field, in order, last
occurrence of a duplicate key winning. -/
lemma parse_fields_text (pairs : List (PyStr × PyStr))
    (h : ∀ p ∈ pairs, goodKey p.1 = true ∧ goodValue p.2 = true) :
    parse_history_parameters (fields_text pairs) = some (insertAll [] pairs) := by
  rw [parse_history_parameters, splitLinesKeep_fields_text pairs h]
  exact php_go_fields pairs none [] h

lemma dict_set_append_of_not_mem {α : Type} (d : List (PyStr × α)) (k : PyStr) (v : α)
    (h : k ∉ d.map Prod.fst) : dict_set d k v = d ++ [(k, v)] := by
  induction d with
  | nil => rfl
  | cons p rest ih =>
    have h1 : ¬ p.1 = k := fun hh => h (by rw [List.map_cons, hh]; exact List.mem_cons_self _ _)
    have h2 : k ∉ rest.map Prod.fst := fun hh =>
      h (by rw [List.map_cons]; exact List.mem_cons_of_mem _ hh)
    rw [dict_set, if_neg h1, ih h2]
    rfl

lemma insertAll_of_fresh (pairs : List (PyStr × PyStr)) :
    ∀ d : List (PyStr × PyStr),
      (∀ k ∈ pairs.map Prod.fst, k ∉ d.map Prod.fst) →
      (pairs.map Prod.fst).Nodup →
      insertAll d pairs = d ++ pairs := by
  induction pairs with
  | nil => intro d _ _; simp [insertAll]
  | cons kv pairs' ih =>
    intro d hfresh hnd
    have hk : kv.1 ∉ d.map Prod.fst :=
      hfresh kv.1 (by rw [List.map_cons]; exact List.mem_cons_self _ _)
    have hstep : insertAll d (kv :: pairs') = insertAll (dict_set d kv.1 kv.2) pairs' := rfl
    rw [hstep, dict_set_append_of_not_mem d kv.1 kv.2 hk]
    have hnd' : (pairs'.map Prod.fst).Nodup := (List.nodup_cons.mp (by simpa using hnd)).2
    have hknotin : kv.1 ∉ pairs'.map Prod.fst := (List.nodup_cons.mp (by simpa using hnd)).1
    have hfresh' : ∀ k ∈ pairs'.map Prod.fst, k ∉ (d ++ [(kv.1, kv.2)]).map Prod.fst := by
      intro k hkmem
      rw [List.map_append]
      intro hmem
      rcases List.mem_append.mp hmem with h1 | h1
      · exact hfresh k (by rw [List.map_cons]; exact List.mem_cons_of_mem _ hkmem) h1
      · simp at h1
        exact hknotin (h1 ▸ hkmem)
    rw [ih (d ++ [(kv.1, kv.2)]) hfresh' hnd']
    simp

/-! ### Decimal rendering and parsing round-trip -/

lemma digitChar_isDigit (d : Nat) (hd : d < 10) : (digitChar d).isDigit = true := by
  interval_cases d <;> decide

lemma digitChar_toNat (d : Nat) (hd : d < 10) : (digitChar d).toNat - 48 = d := by
  interval_cases d <;> decide

lemma digit_not_space (c : Char) (h : c.isDigit = true) : isPySpace c = false := by
  cases hs : isPySpace c
  · rfl
  · exfalso
    simp only [isPySpace, Bool.or_eq_true, decide_eq_true_eq] at hs
    rcases hs with ((((h1 | h1) | h1) | h1) | h1) | h1 <;>
      (subst h1; exact absurd h (by decide))

lemma digit_not_break (c : Char) (h : c.isDigit = true) : isLineBreakChar c = false := by
  cases hs : isLineBreakChar c
  · rfl
  · exfalso
    simp only [isLineBreakChar, Bool.or_eq_true, decide_eq_true_eq] at hs
    rcases hs with ((((((((h1 | h1) | h1) | h1) | h1) | h1) | h1) | h1) | h1) | h1 <;>
      (subst h1; exact absurd h (by decide))

lemma natToCharsAux_digits : ∀ (fuel n : Nat), ∀ c ∈ natToCharsAux fuel n,
    c.isDigit = true := by
  intro fuel
  induction fuel with
  | zero => intro n c hc; exact absurd hc (by simp [natToCharsAux])
  | succ fuel ih =>
    intro n c hc
    cases n with
    | zero => exact absurd hc (by simp [natToCharsAux])
    | succ m =>
      rw [natToCharsAux] at hc
      rcases List.mem_append.mp hc with h1 | h1
      · exact ih _ c h1
      · rcases List.mem_singleton.mp h1 with rfl
        exact digitChar_isDigit _ (Nat.mod_lt _ (by omega))

lemma natToCharsAux_foldl : ∀ (fuel n : Nat), n ≤ fuel → ∀ acc : Nat,
    (natToCharsAux fuel n).foldl (fun a c => 10 * a + (c.toNat - 48)) acc =
      acc * 10 ^ (natToCharsAux fuel n).length + n := by
  intro fuel
  induction fuel with
  | zero =>
    intro n hn acc
    interval_cases n
    simp [natToCharsAux]
  | succ fuel ih =>
    intro n hn acc
    cases n with
    | zero => simp [natToCharsAux]
    | succ m =>
      rw [natToCharsAux]
      have hq : (m + 1) / 10 ≤ fuel := by
        have := Nat.div_lt_self (by omega : 0 < m + 1) (by omega : 1 < 10)
        omega
      rw [List.foldl_append]
      rw [ih _ hq acc]
      simp only [List.foldl_cons, List.foldl_nil, List.length_append, List.length_singleton]
      rw [digitChar_toNat _ (Nat.mod_lt _ (by omega))]
      have hdm : 10 * ((m + 1) / 10) + (m + 1) % 10 = m + 1 := Nat.div_add_mod (m + 1) 10
      rw [pow_succ]
      ring_nf
      omega

lemma pyDigitsGo_cons_digit (acc : Nat) (c : Char) (cs : PyStr) (hc : c.isDigit = true) :
    pyDigitsGo acc (c :: cs) = pyDigitsGo (10 * acc + (c.toNat - 48)) cs := by
  rw [pyDigitsGo.eq_def]
  simp [hc]

lemma pyDigitsGo_digits : ∀ (ds : PyStr) (acc : Nat),
    (∀ c ∈ ds, c.isDigit = true) →
    pyDigitsGo acc ds = some (ds.foldl (fun a c => 10 * a + (c.toNat - 48)) acc) := by
  intro ds
  induction ds with
  | nil => intro acc _; rfl
  | cons c cs ih =>
    intro acc h
    have hc : c.isDigit = true := h c (List.mem_cons_self c cs)
    rw [pyDigitsGo_cons_digit acc c cs hc,
      ih _ (fun d hd => h d (List.mem_cons_of_mem c hd))]
    rfl

lemma natToChars_digits (n : Nat) : ∀ c ∈ natToChars n, c.isDigit = true := by
  intro c hc
  rw [natToChars] at hc
  by_cases h : n = 0
  · rw [if_pos h] at hc
    rcases List.mem_singleton.mp hc with rfl
    decide
  · rw [if_neg h] at hc
    exact natToCharsAux_digits n n c hc

lemma natToChars_ne_nil (n : Nat) : natToChars n ≠ [] := by
  rw [natToChars]
  by_cases h : n = 0
  · rw [if_pos h]; simp
  · rw [if_neg h]
    rcases n with _ | m
    · exact absurd rfl h
    · rw [natToCharsAux]; simp

lemma natToChars_foldl (n : Nat) :
    (natToChars n).foldl (fun a c => 10 * a + (c.toNat - 48)) 0 = n := by
  rw [natToChars]
  by_cases h : n = 0
  · rw [if_pos h, h]; decide
  · rw [if_neg h]
    have := natToCharsAux_foldl n n (le_refl n) 0
    simpa using this

lemma dropWhile_all_false (p : Char → Bool) (s : PyStr)
    (h : ∀ c ∈ s, p c = false) : s.dropWhile p = s := by
  cases s with
  | nil => rfl
  | cons c cs =>
    rw [List.dropWhile_cons, if_neg (by simp [h c (List.mem_cons_self c cs)])]

lemma stripWS_eq_self (s : PyStr) (h : ∀ c ∈ s, isPySpace c = false) :
    stripWS s = s := by
  rw [stripWS, dropWhile_all_false _ s h,
    dropWhile_all_false _ s.reverse (fun c hc => h c (List.mem_reverse.mp hc)),
    List.reverse_reverse]

lemma pyDigits?_natToChars (n : Nat) : pyDigits? (natToChars n) = some n := by
  rcases hd : natToChars n with _ | ⟨c, cs⟩
  · exact absurd hd (natToChars_ne_nil n)
  · have hall : ∀ ch ∈ natToChars n, ch.isDigit = true := natToChars_digits n
    have hc : c.isDigit = true := hall c (hd ▸ List.mem_cons_self c cs)
    rw [pyDigits?, if_pos hc, ← hd, pyDigitsGo_digits _ 0 hall, natToChars_foldl n]

lemma pyInt?_natToChars (n : Nat) : pyInt? (natToChars n) = some (n : Int) := by
  have hall : ∀ ch ∈ natToChars n, ch.isDigit = true := natToChars_digits n
  have hstrip : stripWS (natToChars n) = natToChars n :=
    stripWS_eq_self _ (fun c hc => digit_not_space c (hall c hc))
  rcases hd : natToChars n with _ | ⟨c, cs⟩
  · exact absurd hd (natToChars_ne_nil n)
  · have hc : c.isDigit = true := hall c (hd ▸ List.mem_cons_self c cs)
    have hplus : ¬ (c = '+') := fun hh => absurd (hh ▸ hc) (by decide)
    have hminus : ¬ (c = '-') := fun hh => absurd (hh ▸ hc) (by decide)
    rw [hd] at hstrip
    rw [pyInt?, hstrip]
    simp only [if_neg hplus, if_neg hminus]
    rw [← hd, pyDigits?_natToChars n]
    rfl

lemma pyInt?_pyStrOfInt (m : Int) : pyInt? (pyStrOfInt m) = some m := by
  rw [pyStrOfInt]
  by_cases h : m < 0
  · rw [if_pos h]
    have hall : ∀ ch ∈ natToChars m.natAbs, ch.isDigit = true := natToChars_digits _
    have hnospace : ∀ ch ∈ ('-') :: natToChars m.natAbs, isPySpace ch = false := by
      intro ch hch
      rcases List.mem_cons.mp hch with rfl | hch'
      · decide
      · exact digit_not_space ch (hall ch hch')
    have hstrip : stripWS (('-') :: natToChars m.natAbs) = ('-') :: natToChars m.natAbs :=
      stripWS_eq_self _ hnospace
    rw [pyInt?, hstrip]
    simp only [if_neg (by decide : ¬ (('-' : Char) = '+')), if_pos rfl]
    rw [pyDigits?_natToChars]
    show some (-(m.natAbs : Int)) = some m
    congr 1
    omega
  · rw [if_neg h, pyInt?_natToChars]
    congr 1
    omega

lemma pyStrOfInt_ne_nil (m : Int) : pyStrOfInt m ≠ [] := by
  rw [pyStrOfInt]
  by_cases h : m < 0
  · rw [if_pos h]; simp
  · rw [if_neg h]; exact natToChars_ne_nil _

lemma pyStrOfInt_lineFree (m : Int) : lineFree (pyStrOfInt m) = true := by
  rw [lineFree, List.all_eq_true]
  intro c hc
  rw [pyStrOfInt] at hc
  by_cases h : m < 0
  · rw [if_pos h] at hc
    rcases List.mem_cons.mp hc with rfl | hc'
    · decide
    · simp [digit_not_break c (natToChars_digits _ c hc')]
  · rw [if_neg h] at hc
    simp [digit_not_break c (natToChars_digits _ c hc)]

/-! ### Single-line values and the generated header text -/

lemma splitOnChar_no_occurrence (c : Char) (v : PyStr) (h : c ∉ v) :
    splitOnChar c v = [v] := by
  induction v with
  | nil => rfl
  | cons a rest ih =>
    have ha : ¬ (a = c) := fun hh => h (hh ▸ List.mem_cons_self a rest)
    have h' : c ∉ rest := fun hh => h (List.mem_cons_of_mem a hh)
    rw [splitOnChar, if_neg ha, ih h']
    rfl

lemma lineFree_not_nl (v : PyStr) (h : lineFree v = true) : ('\n') ∉ v := by
  intro hmem
  have := List.all_eq_true.mp h ('\n') hmem
  simp [isLineBreakChar] at this

lemma goodValue_of_lineFree (v : PyStr) (h : lineFree v = true) : goodValue v = true := by
  rw [goodValue, Bool.and_eq_true]
  constructor
  · rw [List.all_eq_true]
    intro c hc
    have := List.all_eq_true.mp h c hc
    simp only [Bool.not_eq_true'] at this
    simp [this]
  · rw [splitOnChar_no_occurrence '\n' v (lineFree_not_nl v h)]
    rfl

lemma word_ne_nl (c : Char) (h : isWordChar c = true) : ¬ (c = '\n') := by
  intro hh
  have := word_not_break c h
  rw [hh] at this
  exact absurd this (by decide)

lemma splitNL_fields_text (pairs : List (PyStr × PyStr))
    (h : ∀ p ∈ pairs, goodKey p.1 = true ∧ lineFree p.2 = true) (rest : PyStr) :
    splitNL (fields_text pairs ++ rest) =
      pairs.map (fun p => (p.1 ++ (':') :: p.2) ++ [('\n' : Char)]) ++ splitNL rest := by
  induction pairs with
  | nil => simp [fields_text]
  | cons kv pairs' ih =>
    rcases kv with ⟨k, v⟩
    have hk : goodKey k = true := (h (k, v) (List.mem_cons_self _ _)).1
    have hv : lineFree v = true := (h (k, v) (List.mem_cons_self _ _)).2
    have h' : ∀ p ∈ pairs', goodKey p.1 = true ∧ lineFree p.2 = true :=
      fun p hp => h p (List.mem_cons_of_mem _ hp)
    have hfree : ('\n') ∉ k ++ (':') :: v := by
      intro hmem
      rcases List.mem_append.mp hmem with h1 | h1
      · have hkw : ∀ c ∈ k, isWordChar c = true :=
          List.all_eq_true.mp ((Bool.and_eq_true _ _).mp hk).2
        exact word_ne_nl '\n' (hkw '\n' h1) rfl
      · rcases List.mem_cons.mp h1 with h2 | h2
        · exact absurd h2.symm (by decide)
        · exact lineFree_not_nl v hv h2
    have hshape : fields_text ((k, v) :: pairs') ++ rest =
        (k ++ (':') :: v) ++ ('\n') :: (fields_text pairs' ++ rest) := by
      show encode_field k v ++ fields_text pairs' ++ rest = _
      rw [encode_field, os_linesep]
      simp [List.append_assoc]
    rw [hshape, splitNL_append_line _ _ hfree, ih h']
    simp

lemma marker_cons : MARKER = ('>') :: (pstr (">>>>  OUTPUT STARTED <<<<<")) := rfl

lemma header_line_ne_marker (k v : PyStr) (hk : goodKey k = true) :
    rstrip_once ((k ++ (':') :: v) ++ [('\n' : Char)]) '\n' ≠ MARKER := by
  rw [rstrip_once_concat]
  rcases k with _ | ⟨c0, k'⟩
  · exact absurd hk (by decide)
  · intro heq
    rw [marker_cons] at heq
    have hc0 : c0 = '>' := by
      have := congrArg List.head? heq
      simpa using this
    have hw : isWordChar c0 = true :=
      List.all_eq_true.mp ((Bool.and_eq_true _ _).mp hk).2 c0 (List.mem_cons_self _ _)
    rw [hc0] at hw
    exact absurd hw (by decide)

lemma flatten_header_lines (pairs : List (PyStr × PyStr)) :
    (pairs.map (fun p => (p.1 ++ (':') :: p.2) ++ [('\n' : Char)])).flatten =
      fields_text pairs := by
  induction pairs with
  | nil => rfl
  | cons kv pairs' ih =>
    rw [List.map_cons, List.flatten_cons, ih]
    show ((kv.1 ++ (':') :: kv.2) ++ [('\n' : Char)]) ++ fields_text pairs' =
      encode_field kv.1 kv.2 ++ fields_text pairs'
    rw [encode_field, os_linesep]

/-- Scanning the generated header content (fields, then the marker line,
then anything): the marker is found and the header text is recovered. -/
lemma read_parameters_of_header (pairs : List (PyStr × PyStr))
    (h : ∀ p ∈ pairs, goodKey p.1 = true ∧ lineFree p.2 = true) (body : PyStr) :
    read_parameters_go
        (splitNL (fields_text pairs ++ MARKER ++ os_linesep ++ body)) [] =
      (true, fields_text pairs) := by
  have hshape : fields_text pairs ++ MARKER ++ os_linesep ++ body =
      fields_text pairs ++ (MARKER ++ ('\n') :: body) := by
    rw [os_linesep]
    simp [List.append_assoc]
  have hmark : ('\n') ∉ MARKER := by decide
  rw [hshape, splitNL_fields_text pairs h (MARKER ++ ('\n') :: body),
    splitNL_append_line MARKER body hmark]
  have hlines : ∀ l ∈ pairs.map (fun p => (p.1 ++ (':') :: p.2) ++ [('\n' : Char)]),
      rstrip_once l '\n' ≠ MARKER := by
    intro l hl
    rcases List.mem_map.mp hl with ⟨p, hp, rfl⟩
    exact header_line_ne_marker p.1 p.2 (h p hp).1
  rw [read_parameters_go_found _ [] _ hlines, flatten_header_lines]
  simp

/-! ### Building entries from parsed headers -/

lemma parameters_to_entry_aux_of (ps : List (PyStr × PyStr)) (idv : PyStr)
    (ec : Option Int) (sts : PyStr) (stv : Int)
    (hlook : alookup ps keyStartTime = some sts)
    (hne : ¬ (sts = [])) (hint : pyInt? sts = some stv) :
    parameters_to_entry_aux ps idv ec =
      some (some (mkEntry ps idv ec (some (ms_to_datetime stv)))) := by
  simp only [parameters_to_entry_aux, hlook, if_neg hne, hint]

lemma parameters_to_entry_of_no_exit (ps : List (PyStr × PyStr)) (idv : PyStr)
    (hid : alookup ps keyId = some idv) (hne : ¬ (idv = []))
    (hec : alookup ps keyExitCode = none) :
    parameters_to_entry ps = parameters_to_entry_aux ps idv none := by
  simp only [parameters_to_entry, hid, if_neg hne, hec]

lemma parameters_to_entry_of_exit (ps : List (PyStr × PyStr)) (idv ecs : PyStr) (ec : Int)
    (hid : alookup ps keyId = some idv) (hne : ¬ (idv = []))
    (hec : alookup ps keyExitCode = some ecs) (hint : pyInt? ecs = some ec) :
    parameters_to_entry ps = parameters_to_entry_aux ps idv (some ec) := by
  simp only [parameters_to_entry, hid, if_neg hne, hec, hint]

lemma fields_text_no_cr (pairs : List (PyStr × PyStr))
    (h : ∀ p ∈ pairs, goodKey p.1 = true ∧ lineFree p.2 = true) :
    ('\r') ∉ fields_text pairs := by
  induction pairs with
  | nil => simp [fields_text]
  | cons kv pairs' ih =>
    rcases kv with ⟨k, v⟩
    have hk : goodKey k = true := (h (k, v) (List.mem_cons_self _ _)).1
    have hv : lineFree v = true := (h (k, v) (List.mem_cons_self _ _)).2
    have h' : ∀ p ∈ pairs', goodKey p.1 = true ∧ lineFree p.2 = true :=
      fun p hp => h p (List.mem_cons_of_mem _ hp)
    intro hmem
    have hsplit : ('\r') ∈ encode_field k v ∨ ('\r') ∈ fields_text pairs' := by
      have : fields_text ((k, v) :: pairs') = encode_field k v ++ fields_text pairs' := rfl
      rw [this] at hmem
      exact List.mem_append.mp hmem
    rcases hsplit with h1 | h1
    · rw [encode_field, os_linesep] at h1
      simp only [List.mem_append, List.mem_cons, List.mem_singleton,
        List.not_mem_nil, or_false] at h1
      rcases h1 with (h2 | h2 | h2) | h2
      · have hkw : ∀ c ∈ k, isWordChar c = true :=
          List.all_eq_true.mp ((Bool.and_eq_true _ _).mp hk).2
        exact absurd (hkw '\r' h2) (by decide)
      · exact absurd h2 (by decide)
      · have := List.all_eq_true.mp hv '\r' h2
        simp [isLineBreakChar] at this
      · exact absurd h2 (by decide)
    · exact ih h' h1

lemma read_parameters_text_generated (pairs : List (PyStr × PyStr))
    (h : ∀ p ∈ pairs, goodKey p.1 = true ∧ lineFree p.2 = true) (body : PyStr) :
    read_parameters_text (fields_text pairs ++ MARKER ++ os_linesep ++ body) =
      (true, fields_text pairs) := by
  rw [read_parameters_text]
  have hA : ('\r') ∉ fields_text pairs ++ MARKER ++ os_linesep := by
    intro hmem
    rcases List.mem_append.mp hmem with h1 | h1
    · rcases List.mem_append.mp h1 with h2 | h2
      · exact fields_text_no_cr pairs h h2
      · exact absurd h2 (by decide)
    · exact absurd h1 (by decide)
  have huniv : univNewlines (fields_text pairs ++ MARKER ++ os_linesep ++ body) =
      fields_text pairs ++ MARKER ++ os_linesep ++ univNewlines body :=
    univNewlines_append_no_cr _ body hA
  rw [huniv]
  exact read_parameters_of_header pairs h (univNewlines body)

/-- Extracting a history entry from a file whose content is a generated
header followed by the marker line and an arbitrary body. -/
lemma extract_history_entry_generated (fs : FS) (f : PyStr)
    (pairs : List (PyStr × PyStr)) (body : PyStr)
    (hf : alookup fs f = some (fields_text pairs ++ MARKER ++ os_linesep ++ body))
    (h : ∀ p ∈ pairs, goodKey p.1 = true ∧ lineFree p.2 = true) :
    extract_history_entry fs f = parameters_to_entry (insertAll [] pairs) := by
  have hrp := read_parameters_text_generated pairs h body
  have hparse : parse_history_parameters (fields_text pairs) = some (insertAll [] pairs) :=
    parse_fields_text pairs
      (fun p hp => ⟨(h p hp).1, goodValue_of_lineFree p.2 (h p hp).2⟩)
  simp only [extract_history_entry, hf, hrp, hparse]
  simp

/-! ### Locating the marker in a transcript -/

lemma begins_prefix_left (M x T : PyStr) (hlen : M.length ≤ x.length)
    (hb : begins M (x ++ T) = true) : begins M x = true := by
  rw [begins_iff] at hb ⊢
  rw [List.take_append_eq_append_take, Nat.sub_eq_zero_of_le hlen] at hb
  simpa using hb

lemma begins_short_prefix (M x T : PyStr) (hlen : x.length < M.length)
    (hb : begins M (x ++ T) = true) : x = M.take x.length := by
  rw [begins_iff] at hb
  have h1 : ((x ++ T).take M.length).take x.length = M.take x.length := by rw [hb]
  rw [List.take_take, min_eq_left (le_of_lt hlen), List.take_left] at h1
  exact h1

lemma begins_append_mono (p q s : PyStr) (hb : begins (p ++ q) s = true) :
    begins p s = true := by
  rw [begins_iff] at hb ⊢
  have h1 : (s.take (p ++ q).length).take p.length = (p ++ q).take p.length := by rw [hb]
  rw [List.take_take, List.take_left, List.length_append,
    min_eq_left (Nat.le_add_right _ _)] at h1
  exact h1

lemma getLast?_drop_of_lt (H : PyStr) (i : Nat) (hi : i < H.length) :
    (H.drop i).getLast? = H.getLast? := by
  have hne : H.drop i ≠ [] := by
    apply List.ne_nil_of_length_pos
    rw [List.length_drop]
    omega
  conv_rhs => rw [← List.take_append_drop i H]
  rw [List.getLast?_append_of_ne_nil _ hne]

lemma mem_of_getLast?' (l : PyStr) (a : Char) (h : l.getLast? = some a) : a ∈ l := by
  induction l with
  | nil => simp [List.getLast?] at h
  | cons c cs ih =>
    cases cs with
    | nil =>
      simp [List.getLast?] at h
      simp [h]
    | cons d ds =>
      rw [List.getLast?_cons_cons] at h
      exact List.mem_cons_of_mem c (ih h)

lemma begins_marker_false_extend (H T : PyStr) (hlast : H.getLast? = some ('\n'))
    (hno : ∀ i, i < H.length → begins MARKER (H.drop i) = false) :
    ∀ i, i < H.length → begins MARKER ((H ++ T).drop i) = false := by
  intro i hi
  have hdrop : (H ++ T).drop i = H.drop i ++ T := by
    rw [List.drop_append_eq_append_drop, Nat.sub_eq_zero_of_le (le_of_lt hi)]
    rfl
  rw [hdrop]
  cases hb : begins MARKER (H.drop i ++ T) with
  | false => rfl
  | true =>
    exfalso
    by_cases hlen : MARKER.length ≤ (H.drop i).length
    · have := begins_prefix_left _ _ _ hlen hb
      rw [hno i hi] at this
      exact absurd this (by simp)
    · have hx := begins_short_prefix _ _ _ (lt_of_not_le hlen) hb
      have hlast' : (H.drop i).getLast? = some ('\n') := by
        rw [getLast?_drop_of_lt H i hi, hlast]
      have hmem : ('\n') ∈ MARKER.take (H.drop i).length := by
        rw [← hx]
        exact mem_of_getLast?' _ _ hlast'
      have : ('\n') ∈ MARKER := List.take_subset _ _ hmem
      exact absurd this (by decide)

lemma splitOnce_marker_content (H R : PyStr) (hlast : H.getLast? = some ('\n'))
    (hno : ∀ i, i < H.length → begins MARKER (H.drop i) = false) :
    splitOnce MARKER (H ++ MARKER ++ R) = some (H, R) := by
  refine splitOnce_boundary MARKER H R (by decide) (fun i hi => ?_)
  have := begins_marker_false_extend H (MARKER ++ R) hlast hno i hi
  rw [← List.append_assoc] at this
  exact this

lemma splitOnce_markernl_content (H R : PyStr) (hlast : H.getLast? = some ('\n'))
    (hno : ∀ i, i < H.length → begins MARKER (H.drop i) = false) :
    splitOnce (MARKER ++ os_linesep) (H ++ (MARKER ++ os_linesep) ++ R) = some (H, R) := by
  refine splitOnce_boundary (MARKER ++ os_linesep) H R (by decide) (fun i hi => ?_)
  cases hb : begins (MARKER ++ os_linesep) ((H ++ (MARKER ++ os_linesep) ++ R).drop i) with
  | false => rfl
  | true =>
    exfalso
    have hM : begins MARKER ((H ++ (MARKER ++ os_linesep) ++ R).drop i) = true :=
      begins_append_mono _ _ _ hb
    have := begins_marker_false_extend H ((MARKER ++ os_linesep) ++ R) hlast hno i hi
    rw [← List.append_assoc] at this
    rw [this] at hM
    exact absurd hM (by simp)

/-! ### Facade-level computation lemmas -/

lemma fields_text_cons (kv : PyStr × PyStr) (pairs : List (PyStr × PyStr)) :
    fields_text (kv :: pairs) = encode_field kv.1 kv.2 ++ fields_text pairs := rfl

lemma encode_field_ne_nil (k v : PyStr) : encode_field k v ≠ [] := by
  rw [encode_field]
  simp

lemma encode_field_getLast (k v : PyStr) :
    (encode_field k v).getLast? = some ('\n') := by
  rw [encode_field, os_linesep]
  exact List.getLast?_concat _

lemma fields_text_getLast (pairs : List (PyStr × PyStr)) (h : pairs ≠ []) :
    (fields_text pairs).getLast? = some ('\n') := by
  induction pairs with
  | nil => exact absurd rfl h
  | cons kv pairs' ih =>
    rw [fields_text_cons]
    by_cases hp : pairs' = []
    · subst hp
      show (encode_field kv.1 kv.2 ++ []).getLast? = some ('\n')
      rw [List.append_nil]
      exact encode_field_getLast kv.1 kv.2
    · have hne : fields_text pairs' ≠ [] := by
        rcases List.exists_cons_of_ne_nil hp with ⟨q, qs, rfl⟩
        rw [fields_text_cons]
        have := encode_field_ne_nil q.1 q.2
        intro hh
        rcases List.append_eq_nil.mp hh with ⟨h1, _⟩
        exact this h1
      rw [List.getLast?_append_of_ne_nil _ hne]
      exact ih hp

lemma renew_of_allVisited (st : LogState) (h : allVisited st = true) :
    renew_files_cache_count st =
      some ({ st with cache := st.cache.filter (fun p => (alookup st.fs p.2).isSome) }, 0) := by
  rw [renew_files_cache_count]
  have hnoop : discover_go st.fs (st.fs.map Prod.fst) st.visited
      (st.cache.filter (fun p => (alookup st.fs p.2).isSome)) 0 =
      some (st.visited, st.cache.filter (fun p => (alookup st.fs p.2).isSome), 0) := by
    refine discover_noop st.fs _ _ _ _ (fun f hf _ => ?_)
    rcases List.mem_map.mp hf with ⟨p, hp, rfl⟩
    have := List.all_eq_true.mp h p hp
    simpa using this
  rw [hnoop]

lemma find_log_spec (st st1 : LogState) (eid f content H R : PyStr)
    (hrenew : renew_files_cache st = some st1)
    (hx : alookup st1.cache eid = some f)
    (hf : alookup st1.fs f = some content)
    (hsplit : splitOnce MARKER content = some (H, R)) :
    find_log st eid = some (some (lstrip_any_linesep R), st1) := by
  simp only [find_log, hrenew, hx, hf, hsplit]

lemma find_log_absent (st st1 : LogState) (eid : PyStr)
    (hrenew : renew_files_cache st = some st1)
    (hx : alookup st1.cache eid = none) :
    find_log st eid = some (none, st1) := by
  simp only [find_log, hrenew, hx]

lemma find_history_entry_spec (st st1 : LogState) (eid f : PyStr)
    (e? : Option HistoryEntry)
    (hrenew : renew_files_cache st = some st1)
    (hx : alookup st1.cache eid = some f)
    (hext : extract_history_entry st1.fs f = some e?) :
    find_history_entry st eid = some (e?, st1) := by
  simp only [find_history_entry, hrenew, hx, hext]

lemma find_history_entry_absent (st st1 : LogState) (eid : PyStr)
    (hrenew : renew_files_cache st = some st1)
    (hx : alookup st1.cache eid = none) :
    find_history_entry st eid = some (none, st1) := by
  simp only [find_history_entry, hrenew, hx]

lemma history_entries_of_mem (fs : FS) (files : List PyStr) :
    ∀ res, history_entries_of fs files = some res →
      ∀ e ∈ res, ∃ g, g ∈ files ∧ extract_history_entry fs g = some (some e) := by
  induction files with
  | nil =>
    intro res h e he
    rw [history_entries_of] at h
    simp only [Option.some.injEq] at h
    rw [← h] at he
    exact absurd he (List.not_mem_nil e)
  | cons f rest ih =>
    intro res h e he
    rw [history_entries_of] at h
    cases hext : extract_history_entry fs f with
    | none => rw [hext] at h; exact absurd h (by simp)
    | some e? =>
      cases e? with
      | none =>
        rw [hext] at h
        rcases ih res h e he with ⟨g, hg, hge⟩
        exact ⟨g, List.mem_cons_of_mem f hg, hge⟩
      | some e0 =>
        rw [hext] at h
        cases hrest : history_entries_of fs rest with
        | none => rw [hrest] at h; exact absurd h (by simp)
        | some res' =>
          rw [hrest] at h
          simp only [Option.map_some', Option.some.injEq] at h
          rw [← h] at he
          rcases List.mem_cons.mp he with rfl | he'
          · exact ⟨f, List.mem_cons_self f rest, hext⟩
          · rcases ih res' hrest e he' with ⟨g, hg, hge⟩
            exact ⟨g, List.mem_cons_of_mem f hg, hge⟩

lemma history_entries_total (fs : FS) (files : List PyStr)
    (h : ∀ g ∈ files, extract_history_entry fs g ≠ none) :
    (history_entries_of fs files).isSome = true := by
  induction files with
  | nil => rfl
  | cons f rest ih =>
    rw [history_entries_of]
    cases hext : extract_history_entry fs f with
    | none => exact absurd hext (h f (List.mem_cons_self f rest))
    | some e? =>
      have hr := ih (fun g hg => h g (List.mem_cons_of_mem f hg))
      cases e? with
      | none => exact hr
      | some e0 =>
        cases hrest : history_entries_of fs rest with
        | none => rw [hrest] at hr; exact absurd hr (by simp)
        | some res' => simp

/-! ### Claim theorems -/

lemma php_go_group (ls : List PyStr) :
    ∀ (kv : PyStr × PyStr) (ps : List (PyStr × PyStr)),
      parse_history_parameters_go ls (some kv) ps =
        some ((groupGo ls kv).foldl
          (fun d p => dict_set d p.1 (rstrip_once p.2 '\n')) ps) := by
  induction ls with
  | nil => intro kv ps; rfl
  | cons l ls ih =>
    intro kv ps
    cases hm : matchFieldLine l with
    | some kv2 =>
      simp only [parse_history_parameters_go, groupGo, hm]
      rw [ih kv2 (dict_set ps kv.1 (rstrip_once kv.2 '\n'))]
      rfl
    | none =>
      simp only [parse_history_parameters_go, groupGo, hm]
      exact ih (kv.1, kv.2 ++ l) ps

/-- Claim C9 (amended): the header decoder is exactly the grouping rule of
the specification, with the field-start pattern corrected to require the
line to carry its `'\n'` terminator (`re.fullmatch('([\w_]+):(.*\r?\n)')`):
a terminated line whose prefix is word-characters-then-colon starts a new
field with the remainder (terminator included) as initial value, and every
other line — including a final unterminated `key:value` line — is appended
verbatim to the current field. -/
theorem c9_decode_grouping (text : PyStr) :
    parse_history_parameters text = decodeBlocks text := by
  rw [parse_history_parameters, decodeBlocks]
  cases hls : splitLinesKeep text with
  | nil => rfl
  | cons l ls =>
    cases hm : matchFieldLine l with
    | none => simp only [parse_history_parameters_go, hm]
    | some kv =>
      simp only [parse_history_parameters_go, hm]
      exact php_go_group ls kv []

/-- Claim C9 counterexample: in the header text `"a:b\nid:x"` the final line
`"id:x"` matches the pattern `^[A-Za-z0-9_]+:.*` of the claim, yet the
decoder treats it as a continuation line of the field `a` (it lacks the
`'\n'` terminator demanded by the regex in the code), so the decoded mapping
is `{a ↦ "b\nid:x"}` and no `id` field is produced. -/
theorem c9_counterexample :
    (spec_field_start (pstr ("id:x"))).isSome = true ∧
    parse_history_parameters (pstr ("a:b\nid:x")) =
      some [(pstr ("a"), pstr ("b\nid:x"))] ∧
    alookup [(pstr ("a"), pstr ("b\nid:x"))] (pstr ("id")) = none := by decide

/-- Claim C1 (amended): encoding a header with the six fields and decoding
it yields back the identical mapping, for all values containing embedded
newlines and colons, provided the values are ASCII (the field-start regex
of the source uses the Unicode `\w` class, which the embedding represents
exactly on ASCII text), no value contains a line-break character other
than `'\n'`, and no embedded line of a value begins like a field
(word characters followed by a colon). -/
theorem c1_roundtrip (v1 v2 v3 v4 v5 v6 : PyStr)
    (h1 : roundValue v1 = true) (h2 : roundValue v2 = true) (h3 : roundValue v3 = true)
    (h4 : roundValue v4 = true) (h5 : roundValue v5 = true) (h6 : roundValue v6 = true) :
    parse_history_parameters (fields_text
        [(keyId, v1), (keyUserName, v2), (keyUserId, v3), (keyScript, v4),
         (keyStartTime, v5), (keyCommand, v6)]) =
      some [(keyId, v1), (keyUserName, v2), (keyUserId, v3), (keyScript, v4),
            (keyStartTime, v5), (keyCommand, v6)] := by
  have hgood : ∀ p ∈ ([(keyId, v1), (keyUserName, v2), (keyUserId, v3), (keyScript, v4),
      (keyStartTime, v5), (keyCommand, v6)] : List (PyStr × PyStr)),
      goodKey p.1 = true ∧ goodValue p.2 = true := by
    intro p hp
    simp only [List.mem_cons, List.not_mem_nil, or_false] at hp
    rcases hp with rfl | rfl | rfl | rfl | rfl | rfl
    · exact ⟨show goodKey keyId = true by decide, ((Bool.and_eq_true _ _).mp h1).2⟩
    · exact ⟨show goodKey keyUserName = true by decide, ((Bool.and_eq_true _ _).mp h2).2⟩
    · exact ⟨show goodKey keyUserId = true by decide, ((Bool.and_eq_true _ _).mp h3).2⟩
    · exact ⟨show goodKey keyScript = true by decide, ((Bool.and_eq_true _ _).mp h4).2⟩
    · exact ⟨show goodKey keyStartTime = true by decide, ((Bool.and_eq_true _ _).mp h5).2⟩
    · exact ⟨show goodKey keyCommand = true by decide, ((Bool.and_eq_true _ _).mp h6).2⟩
  rw [parse_fields_text _ hgood]
  rfl

/-- Claim C1 witness: a concrete round trip with an embedded newline in the
user name and a colon in the command. -/
theorem c1_roundtrip_witness :
    roundValue (pstr ("al\nice")) = true ∧
    parse_history_parameters (fields_text
        [(keyId, pstr ("7")), (keyUserName, pstr ("al\nice")), (keyUserId, pstr ("9")),
         (keyScript, pstr ("build.sh")), (keyStartTime, pstr ("1700000000000")),
         (keyCommand, pstr ("./run a:b"))]) =
      some [(keyId, pstr ("7")), (keyUserName, pstr ("al\nice")), (keyUserId, pstr ("9")),
            (keyScript, pstr ("build.sh")), (keyStartTime, pstr ("1700000000000")),
            (keyCommand, pstr ("./run a:b"))] :=
  ⟨by decide, c1_roundtrip _ _ _ _ _ _ (by decide) (by decide) (by decide) (by decide)
    (by decide) (by decide)⟩

/-- Claim C1 counterexample: with the user-name value `"x\nid:2"` (an
embedded newline whose continuation looks like a field), decoding the
encoded header maps `id` to `"2"` instead of the encoded `"1"` — the second
`id:`-shaped line opens a fresh `id` field and the last occurrence wins —
so the decoded mapping is not the encoded one. -/
theorem c1_counterexample :
    parse_history_parameters (fields_text
        [(keyId, pstr ("1")), (keyUserName, pstr ("x\nid:2")), (keyUserId, pstr ("3")),
         (keyScript, pstr ("s")), (keyStartTime, pstr ("0")), (keyCommand, pstr ("c"))]) =
      some [(keyId, pstr ("2")), (keyUserName, pstr ("x")), (keyUserId, pstr ("3")),
            (keyScript, pstr ("s")), (keyStartTime, pstr ("0")), (keyCommand, pstr ("c"))] ∧
    alookup [(pstr ("id"), pstr ("2")), (pstr ("user_name"), pstr ("x")),
        (pstr ("user_id"), pstr ("3")), (pstr ("script"), pstr ("s")),
        (pstr ("start_time"), pstr ("0")), (pstr ("command"), pstr ("c"))] keyId ≠
      some (pstr ("1")) := by decide

/-- Claim C3: the code crashes on a transcript whose first header line is a
continuation line.  `_parse_history_parameters` initialises `current_value`
to `None` and executes `current_value += line` for a non-matching line, so a
file whose first line opens no field raises `TypeError` (modelled by `none`)
instead of yielding "entry not extractable"; the exception propagates out of
`find_history_entry` through the discovery pass of the sync. -/
theorem c3_crash :
    parse_history_parameters (pstr ("hello\n")) = none ∧
    find_history_entry
        ⟨[(pstr ("a.log"), pstr ("hello\n>>>>>  OUTPUT STARTED <<<<<\n"))], [], []⟩
        (pstr ("1")) = none := by decide

/-- Claim C7 (amended): a file none of whose lines — as read back in text
mode, i.e. after universal-newline translation — equals the marker after
stripping a single trailing newline is reported not well-formed, its entry
extraction yields absent (never an exception), and no entry it could
contribute appears in `get_history_entries`: every returned entry comes from
an indexed file other than it. -/
theorem c7_marker_required (content : PyStr)
    (hnm : ∀ l ∈ splitNL (univNewlines content), rstrip_once l '\n' ≠ MARKER) :
    (read_parameters_text content).1 = false ∧
    (∀ (fs : FS) (f : PyStr), alookup fs f = some content →
      extract_history_entry fs f = some none) ∧
    (∀ (st st1 : LogState) (f : PyStr) (res : List HistoryEntry),
      alookup st.fs f = some content →
      get_history_entries st = some (res, st1) →
      ∀ e ∈ res, ∃ g, g ∈ st1.cache.map Prod.snd ∧ g ≠ f ∧
        extract_history_entry st1.fs g = some (some e)) := by
  have hrp : read_parameters_text content =
      (false, (splitNL (univNewlines content)).flatten) := by
    rw [read_parameters_text, read_parameters_go_no_marker _ [] hnm]
    simp
  have hext : ∀ (fs : FS) (f : PyStr), alookup fs f = some content →
      extract_history_entry fs f = some none := by
    intro fs f hf
    simp only [extract_history_entry, hf, hrp]
    simp
  refine ⟨by rw [hrp], hext, ?_⟩
  intro st st1 f res hf hget e he
  rw [get_history_entries] at hget
  cases hren : renew_files_cache st with
  | none => simp only [hren] at hget; exact absurd hget (by simp)
  | some st1' =>
    simp only [hren] at hget
    cases hent : history_entries_of st1'.fs (st1'.cache.map Prod.snd) with
    | none => simp only [hent] at hget; exact absurd hget (by simp)
    | some res' =>
      simp only [hent, Option.some.injEq, Prod.mk.injEq] at hget
      rcases hget with ⟨hres, hst⟩
      rw [← hst]
      obtain ⟨g, hg, hge⟩ :=
        history_entries_of_mem _ _ res' hent e (by rw [hres]; exact he)
      refine ⟨g, hg, ?_, hge⟩
      intro hgf
      subst hgf
      have hfs : st1'.fs = st.fs := renew_fs_eq _ _ hren
      have hnone : extract_history_entry st1'.fs g = some none := by
        refine hext st1'.fs g ?_
        rw [hfs]
        exact hf
      rw [hnone] at hge
      exact absurd hge (by simp)

/-- Claim C7 counterexample: the raw file `">>>>>  OUTPUT STARTED <<<<<\r"`
contains no line equal to the marker after stripping a single trailing
newline only (its sole `'\n'`-line ends in a carriage return), yet the
parser reports the file well-formed: text-mode reading translates the lone
`'\r'` to `'\n'`, so the line matches the marker. -/
theorem c7_counterexample :
    ((splitNL (pstr (">>>>>  OUTPUT STARTED <<<<<\r"))).all
      (fun l => decide (rstrip_once l '\n' ≠ MARKER)) = true) ∧
    (read_parameters_text (pstr (">>>>>  OUTPUT STARTED <<<<<\r"))).1 = true := by decide

/-- Claim C7 witness: a concrete marker-less file in a state with one other
well-formed indexed file; the lone entry returned comes from the other file. -/
theorem c7_marker_required_witness :
    (∀ l ∈ splitNL (univNewlines (pstr ("id:9\nno marker here"))),
      rstrip_once l '\n' ≠ MARKER) ∧
    (read_parameters_text (pstr ("id:9\nno marker here"))).1 = false ∧
    extract_history_entry
      [(pstr ("b.log"), pstr ("id:9\nno marker here"))] (pstr ("b.log")) = some none :=
  ⟨by decide, (c7_marker_required (pstr ("id:9\nno marker here")) (by decide)).1,
    (c7_marker_required (pstr ("id:9\nno marker here")) (by decide)).2.1
      [(pstr ("b.log"), pstr ("id:9\nno marker here"))] (pstr ("b.log")) (by decide)⟩

/-- Claim C6: re-running the sync with no intervening filesystem change
performs zero parses (the counter of the counting sync is `0`) and returns
the state unchanged — in particular the identifier-to-filename index is
identical to the index after the first run. -/
theorem c6_sync_idempotent (st st1 : LogState)
    (h : renew_files_cache st = some st1) :
    renew_files_cache_count st1 = some (st1, 0) :=
  renew_idempotent st st1 h

/-- Claim C6 witness: a concrete first sync discovering one file, after
which the second sync parses nothing and leaves the state unchanged. -/
theorem c6_sync_idempotent_witness :
    renew_files_cache
        ⟨[(pstr ("a.log"), pstr ("id:7\n>>>>>  OUTPUT STARTED <<<<<\n"))], [], []⟩ =
      some ⟨[(pstr ("a.log"), pstr ("id:7\n>>>>>  OUTPUT STARTED <<<<<\n"))],
        [pstr ("a.log")], [(pstr ("7"), pstr ("a.log"))]⟩ ∧
    renew_files_cache_count
        ⟨[(pstr ("a.log"), pstr ("id:7\n>>>>>  OUTPUT STARTED <<<<<\n"))],
          [pstr ("a.log")], [(pstr ("7"), pstr ("a.log"))]⟩ =
      some (⟨[(pstr ("a.log"), pstr ("id:7\n>>>>>  OUTPUT STARTED <<<<<\n"))],
        [pstr ("a.log")], [(pstr ("7"), pstr ("a.log"))]⟩, 0) :=
  ⟨by decide, c6_sync_idempotent
    ⟨[(pstr ("a.log"), pstr ("id:7\n>>>>>  OUTPUT STARTED <<<<<\n"))], [], []⟩ _ (by decide)⟩

lemma find_log_state (st : LogState) (eid : PyStr) (r : Option PyStr) (st1 : LogState)
    (h : find_log st eid = some (r, st1)) : renew_files_cache st = some st1 := by
  rw [find_log] at h
  cases hren : renew_files_cache st with
  | none => simp only [hren] at h; exact absurd h (by simp)
  | some st1' =>
    simp only [hren] at h
    cases hx : alookup st1'.cache eid with
    | none =>
      simp only [hx, Option.some.injEq, Prod.mk.injEq] at h
      rw [h.2]
    | some f =>
      simp only [hx] at h
      cases hc : alookup st1'.fs f with
      | none => simp only [hc] at h; exact absurd h (by simp)
      | some content =>
        simp only [hc] at h
        cases hs : splitOnce MARKER content with
        | none => simp only [hs] at h; exact absurd h (by simp)
        | some pr =>
          simp only [hs, Option.some.injEq, Prod.mk.injEq] at h
          rw [h.2]

lemma find_history_entry_state (st : LogState) (eid : PyStr)
    (r : Option HistoryEntry) (st1 : LogState)
    (h : find_history_entry st eid = some (r, st1)) :
    renew_files_cache st = some st1 := by
  rw [find_history_entry] at h
  cases hren : renew_files_cache st with
  | none => simp only [hren] at h; exact absurd h (by simp)
  | some st1' =>
    simp only [hren] at h
    cases hx : alookup st1'.cache eid with
    | none =>
      simp only [hx, Option.some.injEq, Prod.mk.injEq] at h
      rw [h.2]
    | some f =>
      simp only [hx] at h
      cases he : extract_history_entry st1'.fs f with
      | none => simp only [he] at h; exact absurd h (by simp)
      | some e? =>
        simp only [he, Option.some.injEq, Prod.mk.injEq] at h
        rw [h.2]

lemma get_history_entries_state (st : LogState) (res : List HistoryEntry)
    (st1 : LogState) (h : get_history_entries st = some (res, st1)) :
    renew_files_cache st = some st1 := by
  rw [get_history_entries] at h
  cases hren : renew_files_cache st with
  | none => simp only [hren] at h; exact absurd h (by simp)
  | some st1' =>
    simp only [hren] at h
    cases hent : history_entries_of st1'.fs (st1'.cache.map Prod.snd) with
    | none => simp only [hent] at h; exact absurd h (by simp)
    | some res' =>
      simp only [hent, Option.some.injEq, Prod.mk.injEq] at h
      rw [h.2]

/-- Claim C10: no facade operation ever removes a filename from the visited
set — the sync, `start_logging` and the three lookup operations only grow
it — and consequently, once a transcript file has been deleted (its
identifier pruned, its name still visited) and a new file is created under
the same name, a sync over a directory of already-visited files performs
zero parses and never re-inserts the new identifier into the index; the
with-zero-parses state keeps every file visited, so this persists for every
later sync of the process lifetime. -/
theorem c10_visited_monotone :
    (∀ st st1 : LogState, renew_files_cache st = some st1 →
      ∀ f ∈ st.visited, f ∈ st1.visited) ∧
    (∀ (st : LogState) (eid un uid sc cmd : PyStr) (stm : Int) (fname : PyStr),
      ∀ f ∈ st.visited, f ∈ (start_logging st eid un uid sc cmd stm fname).visited) ∧
    (∀ (st : LogState) (eid : PyStr) (r : Option PyStr) (st1 : LogState),
      find_log st eid = some (r, st1) → ∀ f ∈ st.visited, f ∈ st1.visited) ∧
    (∀ (st : LogState) (eid : PyStr) (r : Option HistoryEntry) (st1 : LogState),
      find_history_entry st eid = some (r, st1) → ∀ f ∈ st.visited, f ∈ st1.visited) ∧
    (∀ (st : LogState) (res : List HistoryEntry) (st1 : LogState),
      get_history_entries st = some (res, st1) → ∀ f ∈ st.visited, f ∈ st1.visited) ∧
    (∀ (st : LogState) (eid' : PyStr), allVisited st = true →
      alookup st.cache eid' = none →
      renew_files_cache_count st =
        some ({ st with
          cache := st.cache.filter (fun p => (alookup st.fs p.2).isSome) }, 0) ∧
      alookup (st.cache.filter (fun p => (alookup st.fs p.2).isSome)) eid' = none ∧
      allVisited { st with
          cache := st.cache.filter (fun p => (alookup st.fs p.2).isSome) } = true) := by
  refine ⟨renew_visited_mono, ?_, ?_, ?_, ?_, ?_⟩
  · intro st eid un uid sc cmd stm fname f hf
    show f ∈ add_visited fname st.visited
    rw [add_visited]
    by_cases h : fname ∈ st.visited
    · rw [if_pos h]; exact hf
    · rw [if_neg h]; exact List.mem_cons_of_mem _ hf
  · intro st eid r st1 h f hf
    exact renew_visited_mono st st1 (find_log_state st eid r st1 h) f hf
  · intro st eid r st1 h f hf
    exact renew_visited_mono st st1 (find_history_entry_state st eid r st1 h) f hf
  · intro st res st1 h f hf
    exact renew_visited_mono st st1 (get_history_entries_state st res st1 h) f hf
  · intro st eid' hvis hnone
    refine ⟨renew_of_allVisited st hvis, alookup_filter_none _ _ _ hnone, hvis⟩

/-- Claim C10 witness: a deleted-and-recreated `a.log` (now holding id `9`)
whose name is still visited: the sync parses nothing and id `9` stays out of
the index. -/
theorem c10_visited_monotone_witness :
    allVisited ⟨[(pstr ("a.log"), pstr ("id:9\n>>>>>  OUTPUT STARTED <<<<<\n"))],
      [pstr ("a.log")], []⟩ = true ∧
    renew_files_cache_count
        ⟨[(pstr ("a.log"), pstr ("id:9\n>>>>>  OUTPUT STARTED <<<<<\n"))],
          [pstr ("a.log")], []⟩ =
      some (⟨[(pstr ("a.log"), pstr ("id:9\n>>>>>  OUTPUT STARTED <<<<<\n"))],
        [pstr ("a.log")], []⟩, 0) ∧
    alookup ([] : List (PyStr × PyStr)) (pstr ("9")) = none :=
  ⟨by decide,
    (c10_visited_monotone.2.2.2.2.2
      ⟨[(pstr ("a.log"), pstr ("id:9\n>>>>>  OUTPUT STARTED <<<<<\n"))],
        [pstr ("a.log")], []⟩ (pstr ("9")) (by decide) (by decide)).1,
    (c10_visited_monotone.2.2.2.2.2
      ⟨[(pstr ("a.log"), pstr ("id:9\n>>>>>  OUTPUT STARTED <<<<<\n"))],
        [pstr ("a.log")], []⟩ (pstr ("9")) (by decide) (by decide)).2.1⟩

lemma lstrip_linesep (b : PyStr) : lstrip_any_linesep (('\n') :: b) = b := by
  rw [lstrip_any_linesep]
  have h1 : begins ['\r', '\n'] (('\n') :: b) = false := by
    simp [begins, List.take]
  have h2 : begins os_linesep (('\n') :: b) = true := by
    simp [begins, os_linesep, List.take]
  rw [h1]
  simp only [Bool.false_eq_true, if_false, h2, if_true]
  rfl

lemma renew_via_allVisited (st : LogState) (h : allVisited st = true) :
    renew_files_cache st =
      some { st with cache := st.cache.filter (fun p => (alookup st.fs p.2).isSome) } := by
  rw [renew_files_cache, renew_of_allVisited st h]
  rfl

/-- Claim C8: for an indexed execution identifier whose file exists,
`find_log` returns exactly the content strictly after the first marker
occurrence — never the header or the marker line — stripping one leading
line terminator (`"\r\n"` or the platform `"\n"`) exactly when the tail
starts with one, and leaving all remaining bytes unchanged. -/
theorem c8_find_log_body (st st1 : LogState) (eid f content H rest : PyStr)
    (hrenew : renew_files_cache st = some st1)
    (hx : alookup st1.cache eid = some f)
    (hf : alookup st1.fs f = some content)
    (hsplit : splitOnce MARKER content = some (H, rest)) :
    content = H ++ MARKER ++ rest ∧
    find_log st eid =
      some (some (if begins ['\r', '\n'] rest = true then rest.drop 2
        else if begins [('\n' : Char)] rest = true then rest.drop 1 else rest), st1) := by
  refine ⟨splitOnce_sound _ _ _ _ hsplit, ?_⟩
  rw [find_log_spec st st1 eid f content H rest hrenew hx hf hsplit]
  rfl

/-- Claim C8 witness: a concrete indexed log file; the body after the marker
starts with a terminator and exactly one is stripped. -/
theorem c8_find_log_body_witness :
    renew_files_cache
        ⟨[(pstr ("a.log"), pstr ("id:7\n>>>>>  OUTPUT STARTED <<<<<\nline1\n"))],
          [pstr ("a.log")], [(pstr ("7"), pstr ("a.log"))]⟩ =
      some ⟨[(pstr ("a.log"), pstr ("id:7\n>>>>>  OUTPUT STARTED <<<<<\nline1\n"))],
        [pstr ("a.log")], [(pstr ("7"), pstr ("a.log"))]⟩ ∧
    splitOnce MARKER (pstr ("id:7\n>>>>>  OUTPUT STARTED <<<<<\nline1\n")) =
      some (pstr ("id:7\n"), pstr ("\nline1\n")) ∧
    pstr ("id:7\n>>>>>  OUTPUT STARTED <<<<<\nline1\n") =
      pstr ("id:7\n") ++ MARKER ++ pstr ("\nline1\n") ∧
    find_log ⟨[(pstr ("a.log"), pstr ("id:7\n>>>>>  OUTPUT STARTED <<<<<\nline1\n"))],
        [pstr ("a.log")], [(pstr ("7"), pstr ("a.log"))]⟩ (pstr ("7")) =
      some (some (if begins ['\r', '\n'] (pstr ("\nline1\n")) = true
          then (pstr ("\nline1\n")).drop 2
        else if begins [('\n' : Char)] (pstr ("\nline1\n")) = true
          then (pstr ("\nline1\n")).drop 1
        else pstr ("\nline1\n")),
        ⟨[(pstr ("a.log"), pstr ("id:7\n>>>>>  OUTPUT STARTED <<<<<\nline1\n"))],
          [pstr ("a.log")], [(pstr ("7"), pstr ("a.log"))]⟩) :=
  ⟨by decide, by decide,
    (c8_find_log_body
      ⟨[(pstr ("a.log"), pstr ("id:7\n>>>>>  OUTPUT STARTED <<<<<\nline1\n"))],
        [pstr ("a.log")], [(pstr ("7"), pstr ("a.log"))]⟩
      ⟨[(pstr ("a.log"), pstr ("id:7\n>>>>>  OUTPUT STARTED <<<<<\nline1\n"))],
        [pstr ("a.log")], [(pstr ("7"), pstr ("a.log"))]⟩
      (pstr ("7")) (pstr ("a.log"))
      (pstr ("id:7\n>>>>>  OUTPUT STARTED <<<<<\nline1\n"))
      (pstr ("id:7\n")) (pstr ("\nline1\n"))
      (by decide) (by decide) (by decide) (by decide)).1,
    (c8_find_log_body
      ⟨[(pstr ("a.log"), pstr ("id:7\n>>>>>  OUTPUT STARTED <<<<<\nline1\n"))],
        [pstr ("a.log")], [(pstr ("7"), pstr ("a.log"))]⟩
      ⟨[(pstr ("a.log"), pstr ("id:7\n>>>>>  OUTPUT STARTED <<<<<\nline1\n"))],
        [pstr ("a.log")], [(pstr ("7"), pstr ("a.log"))]⟩
      (pstr ("7")) (pstr ("a.log"))
      (pstr ("id:7\n>>>>>  OUTPUT STARTED <<<<<\nline1\n"))
      (pstr ("id:7\n")) (pstr ("\nline1\n"))
      (by decide) (by decide) (by decide) (by decide)).2⟩

lemma alookup_mem {α : Type} (l : List (PyStr × α)) (k : PyStr) (v : α)
    (h : alookup l k = some v) : (k, v) ∈ l := by
  induction l with
  | nil => exact Option.noConfusion h
  | cons p rest ih =>
    rw [alookup] at h
    by_cases hp : p.1 = k
    · rw [if_pos hp] at h
      have : p = (k, v) := Prod.ext hp (by injection h)
      exact this ▸ List.mem_cons_self p rest
    · rw [if_neg hp] at h
      exact List.mem_cons_of_mem p (ih h)

lemma dict_set_nodup {α : Type} (l : List (PyStr × α)) (k : PyStr) (v : α)
    (h : (l.map Prod.fst).Nodup) : ((dict_set l k v).map Prod.fst).Nodup := by
  induction l with
  | nil => simp [dict_set]
  | cons p rest ih =>
    rcases List.nodup_cons.mp (show (p.1 :: rest.map Prod.fst).Nodup from h) with ⟨hp, hrest⟩
    by_cases hk : p.1 = k
    · rw [dict_set, if_pos hk]
      rw [List.map_cons]
      refine List.nodup_cons.mpr ⟨?_, hrest⟩
      rw [← hk]
      exact hp
    · rw [dict_set, if_neg hk, List.map_cons]
      refine List.nodup_cons.mpr ⟨?_, ih hrest⟩
      intro hmem
      rcases List.mem_map.mp hmem with ⟨q, hq, hqe⟩
      rcases mem_dict_set rest k v q hq with h1 | h1
      · exact hp (hqe ▸ List.mem_map_of_mem Prod.fst h1)
      · exact hk (by rw [h1] at hqe; exact hqe.symm ▸ rfl)

lemma dict_set_keys_of_mem {α : Type} (l : List (PyStr × α)) (k : PyStr) (v : α)
    (h : k ∈ l.map Prod.fst) : (dict_set l k v).map Prod.fst = l.map Prod.fst := by
  induction l with
  | nil => simp at h
  | cons p rest ih =>
    by_cases hk : p.1 = k
    · rw [dict_set, if_pos hk, List.map_cons, List.map_cons, hk]
    · rw [dict_set, if_neg hk, List.map_cons, List.map_cons]
      congr 1
      refine ih ?_
      rcases List.mem_map.mp h with ⟨q, hq, hqe⟩
      rcases List.mem_cons.mp hq with h1 | h1
      · exact absurd (h1 ▸ hqe) hk
      · exact hqe ▸ List.mem_map_of_mem Prod.fst h1

lemma mem_add_visited_self (f : PyStr) (vis : List PyStr) : f ∈ add_visited f vis := by
  rw [add_visited]
  by_cases h : f ∈ vis
  · rw [if_pos h]; exact h
  · rw [if_neg h]; exact List.mem_cons_self f vis

lemma mem_add_visited_of_mem (f g : PyStr) (vis : List PyStr) (h : g ∈ vis) :
    g ∈ add_visited f vis := by
  rw [add_visited]
  by_cases hf : f ∈ vis
  · rw [if_pos hf]; exact h
  · rw [if_neg hf]; exact List.mem_cons_of_mem f h

lemma allVisited_start (st : LogState) (eid un uid sc cmd fname : PyStr) (stm : Int)
    (h : allVisited st = true) :
    allVisited (start_logging st eid un uid sc cmd stm fname) = true := by
  rw [allVisited, List.all_eq_true]
  intro p hp
  rcases mem_dict_set st.fs fname (start_logging_content eid un uid sc cmd stm) p hp
    with h1 | h1
  · have := List.all_eq_true.mp h p h1
    simp only [decide_eq_true_eq] at this
    simp only [decide_eq_true_eq]
    exact mem_add_visited_of_mem fname p.1 st.visited this
  · simp only [decide_eq_true_eq]
    rw [h1]
    exact mem_add_visited_self fname st.visited

lemma allVisited_overwrite (st : LogState) (fname nc : PyStr)
    (h : allVisited st = true) (hmem : fname ∈ st.visited) :
    allVisited { st with fs := dict_set st.fs fname nc } = true := by
  rw [allVisited, List.all_eq_true]
  intro p hp
  rcases mem_dict_set st.fs fname nc p hp with h1 | h1
  · have := List.all_eq_true.mp h p h1
    simpa using this
  · simp only [decide_eq_true_eq]
    rw [h1]
    exact hmem

lemma header_pairs_good (eid un uid sc cmd : PyStr) (stm : Int)
    (hl0 : lineFree eid = true) (hl1 : lineFree un = true) (hl2 : lineFree uid = true)
    (hl3 : lineFree sc = true) (hl4 : lineFree cmd = true) :
    ∀ p ∈ header_pairs eid un uid sc cmd stm,
      goodKey p.1 = true ∧ lineFree p.2 = true := by
  intro p hp
  rw [header_pairs] at hp
  simp only [List.mem_cons, List.not_mem_nil, or_false] at hp
  rcases hp with rfl | rfl | rfl | rfl | rfl | rfl
  · exact ⟨show goodKey keyId = true by decide, hl0⟩
  · exact ⟨show goodKey keyUserName = true by decide, hl1⟩
  · exact ⟨show goodKey keyUserId = true by decide, hl2⟩
  · exact ⟨show goodKey keyScript = true by decide, hl3⟩
  · exact ⟨show goodKey keyStartTime = true by decide, pyStrOfInt_lineFree stm⟩
  · exact ⟨show goodKey keyCommand = true by decide, hl4⟩

/-- Claim C4 (amended): for every execution started via `start_logging`
whose identifier is non-empty and whose field values contain no line-break
characters, `find_history_entry` immediately afterwards returns a present
entry with `id` equal to the identifier and `exit_code` absent (the state
hypotheses say the rest of the directory is already visited, so the sync
performed by the lookup cannot fail on unrelated files). -/
theorem c4_start_then_find (st : LogState) (eid un uid sc cmd fname : PyStr) (stm : Int)
    (heid : ¬ (eid = []))
    (hl0 : lineFree eid = true) (hl1 : lineFree un = true) (hl2 : lineFree uid = true)
    (hl3 : lineFree sc = true) (hl4 : lineFree cmd = true)
    (hvis : allVisited st = true)
    (hnd : (st.cache.map Prod.fst).Nodup) :
    find_history_entry (start_logging st eid un uid sc cmd stm fname) eid =
      some (some (mkEntry (header_pairs eid un uid sc cmd stm) eid none
          (some (ms_to_datetime stm))),
        { start_logging st eid un uid sc cmd stm fname with
          cache := (start_logging st eid un uid sc cmd stm fname).cache.filter
            (fun p =>
              (alookup (start_logging st eid un uid sc cmd stm fname).fs p.2).isSome) }) ∧
    (mkEntry (header_pairs eid un uid sc cmd stm) eid none
      (some (ms_to_datetime stm))).id = eid ∧
    (mkEntry (header_pairs eid un uid sc cmd stm) eid none
      (some (ms_to_datetime stm))).exit_code = none := by
  have hgood : ∀ p ∈ header_pairs eid un uid sc cmd stm,
      goodKey p.1 = true ∧ lineFree p.2 = true :=
    header_pairs_good eid un uid sc cmd stm hl0 hl1 hl2 hl3 hl4
  have hvis' : allVisited (start_logging st eid un uid sc cmd stm fname) = true :=
    allVisited_start st eid un uid sc cmd fname stm hvis
  have hren := renew_via_allVisited (start_logging st eid un uid sc cmd stm fname) hvis'
  have hndc : ((start_logging st eid un uid sc cmd stm fname).cache.map Prod.fst).Nodup :=
    dict_set_nodup st.cache eid fname hnd
  have hcl : alookup (start_logging st eid un uid sc cmd stm fname).cache eid = some fname :=
    alookup_dict_set_self st.cache eid fname
  have hfl : alookup (start_logging st eid un uid sc cmd stm fname).fs fname =
      some (start_logging_content eid un uid sc cmd stm) :=
    alookup_dict_set_self st.fs fname _
  have hkeep : alookup ((start_logging st eid un uid sc cmd stm fname).cache.filter
      (fun p => (alookup (start_logging st eid un uid sc cmd stm fname).fs p.2).isSome))
      eid = some fname := by
    refine alookup_filter_of_nodup _ _ eid fname hndc hcl ?_
    show (alookup (start_logging st eid un uid sc cmd stm fname).fs fname).isSome = true
    rw [hfl]
    rfl
  have hextG : extract_history_entry (start_logging st eid un uid sc cmd stm fname).fs fname =
      parameters_to_entry (insertAll [] (header_pairs eid un uid sc cmd stm)) := by
    refine extract_history_entry_generated _ fname _ [] ?_ hgood
    rw [hfl]
    congr 1
    rw [start_logging_content]
    simp
  have hid : alookup (insertAll [] (header_pairs eid un uid sc cmd stm)) keyId =
      some eid := rfl
  have hec : alookup (insertAll [] (header_pairs eid un uid sc cmd stm)) keyExitCode =
      none := rfl
  have hstt : alookup (insertAll [] (header_pairs eid un uid sc cmd stm)) keyStartTime =
      some (pyStrOfInt stm) := rfl
  have hpe : parameters_to_entry (insertAll [] (header_pairs eid un uid sc cmd stm)) =
      some (some (mkEntry (header_pairs eid un uid sc cmd stm) eid none
        (some (ms_to_datetime stm)))) := by
    rw [parameters_to_entry_of_no_exit _ eid hid heid hec,
      parameters_to_entry_aux_of _ eid none (pyStrOfInt stm) stm hstt
        (pyStrOfInt_ne_nil stm) (pyInt?_pyStrOfInt stm)]
    rfl
  refine ⟨?_, rfl, rfl⟩
  refine find_history_entry_spec _ _ eid fname _ hren hkeep ?_
  show extract_history_entry (start_logging st eid un uid sc cmd stm fname).fs fname = _
  rw [hextG, hpe]

/-- Claim C4 counterexample: the empty string is an execution identifier,
and an execution started under it is immediately invisible —
`find_history_entry` returns an absent entry, because `_parameters_to_entry`
rejects a falsy `id` value — contradicting the claim that the entry is
present with `id == X`. -/
theorem c4_counterexample :
    Option.map Prod.fst (find_history_entry
      (start_logging ⟨[], [], []⟩ [] (pstr ("alice")) (pstr ("1")) (pstr ("build.sh"))
        (pstr ("run")) 0 (pstr ("a.log"))) []) = some none := by decide

/-- Claim C4 witness: a concrete started execution that is immediately
visible with its id and no exit code. -/
theorem c4_start_then_find_witness :
    find_history_entry (start_logging ⟨[], [], []⟩ (pstr ("7")) (pstr ("alice"))
        (pstr ("1")) (pstr ("build.sh")) (pstr ("run")) 1700000000000 (pstr ("a.log")))
      (pstr ("7")) =
      some (some (mkEntry (header_pairs (pstr ("7")) (pstr ("alice")) (pstr ("1"))
          (pstr ("build.sh")) (pstr ("run")) 1700000000000) (pstr ("7")) none
          (some (ms_to_datetime 1700000000000))),
        { start_logging ⟨[], [], []⟩ (pstr ("7")) (pstr ("alice")) (pstr ("1"))
            (pstr ("build.sh")) (pstr ("run")) 1700000000000 (pstr ("a.log")) with
          cache := (start_logging ⟨[], [], []⟩ (pstr ("7")) (pstr ("alice")) (pstr ("1"))
              (pstr ("build.sh")) (pstr ("run")) 1700000000000 (pstr ("a.log"))).cache.filter
            (fun p => (alookup (start_logging ⟨[], [], []⟩ (pstr ("7")) (pstr ("alice"))
              (pstr ("1")) (pstr ("build.sh")) (pstr ("run")) 1700000000000
              (pstr ("a.log"))).fs p.2).isSome) }) ∧
    (mkEntry (header_pairs (pstr ("7")) (pstr ("alice")) (pstr ("1")) (pstr ("build.sh"))
      (pstr ("run")) 1700000000000) (pstr ("7")) none
      (some (ms_to_datetime 1700000000000))).id = pstr ("7") ∧
    (mkEntry (header_pairs (pstr ("7")) (pstr ("alice")) (pstr ("1")) (pstr ("build.sh"))
      (pstr ("run")) 1700000000000) (pstr ("7")) none
      (some (ms_to_datetime 1700000000000))).exit_code = none :=
  c4_start_then_find ⟨[], [], []⟩ (pstr ("7")) (pstr ("alice")) (pstr ("1"))
    (pstr ("build.sh")) (pstr ("run")) (pstr ("a.log")) 1700000000000
    (by decide) (by decide) (by decide) (by decide) (by decide) (by decide)
    (by decide) (by decide)

lemma alookup_filter_ne_self {α : Type} (l : List (PyStr × α)) (f : PyStr) :
    alookup (l.filter (fun p => decide (p.1 ≠ f))) f = none := by
  induction l with
  | nil => rfl
  | cons p rest ih =>
    rw [List.filter_cons]
    by_cases hp : p.1 = f
    · rw [if_neg (by simp [hp])]
      exact ih
    · rw [if_pos (by simp [hp]), alookup, if_neg hp]
      exact ih

lemma extractionsAvoidId_spec (fs : FS) (x : PyStr)
    (h : extractionsAvoidId fs x = true) :
    ∀ p ∈ fs, extract_history_entry fs p.1 ≠ none ∧
      (∀ e, extract_history_entry fs p.1 = some (some e) → e.id ≠ x) := by
  intro p hp
  have h0 := List.all_eq_true.mp h p hp
  simp only [Bool.and_eq_true] at h0
  have hgo := h0.2
  cases hext : extract_history_entry fs p.1 with
  | none => rw [hext] at hgo; exact absurd hgo (by simp)
  | some e? =>
    cases e? with
    | none =>
      refine ⟨by simp [hext], ?_⟩
      intro e he
      exact absurd he (by simp)
    | some e0 =>
      rw [hext] at hgo
      simp only [decide_eq_true_eq] at hgo
      refine ⟨by simp [hext], ?_⟩
      intro e he
      simp only [Option.some.injEq] at he
      rw [← he]
      exact hgo

/-- Claim C5: after deleting the backing transcript file of an indexed
identifier, the next sync removes the identifier from the index (no
remaining file yields an entry with that id, per `extractionsAvoidId`, which
also rules out crashing extractions and restricts the remaining files to
ASCII so the modelled parser reads them exactly as the source does),
`find_log` for the identifier returns absent, and `get_history_entries` no
longer includes any entry with that identifier. -/
theorem c5_stale_index (st : LogState) (X f : PyStr)
    (hx : alookup st.cache X = some f)
    (hnd : (st.cache.map Prod.fst).Nodup)
    (havoid : extractionsAvoidId (st.fs.filter (fun p => decide (p.1 ≠ f))) X = true) :
    (renew_files_cache
      { st with fs := st.fs.filter (fun p => decide (p.1 ≠ f)) }).isSome = true ∧
    (∀ st1, renew_files_cache
        { st with fs := st.fs.filter (fun p => decide (p.1 ≠ f)) } = some st1 →
      alookup st1.cache X = none ∧
      find_log { st with fs := st.fs.filter (fun p => decide (p.1 ≠ f)) } X =
        some (none, st1)) ∧
    (∀ res st1, get_history_entries
        { st with fs := st.fs.filter (fun p => decide (p.1 ≠ f)) } = some (res, st1) →
      ∀ e ∈ res, e.id ≠ X) ∧
    (get_history_entries
      { st with fs := st.fs.filter (fun p => decide (p.1 ≠ f)) }).isSome = true := by
  have hspec := extractionsAvoidId_spec _ X havoid
  have hok : ∀ g ∈ (st.fs.filter (fun p => decide (p.1 ≠ f))).map Prod.fst,
      isLogName g = true → g ∉ st.visited →
      extract_history_entry (st.fs.filter (fun p => decide (p.1 ≠ f))) g ≠ none := by
    intro g hg _ _
    rcases List.mem_map.mp hg with ⟨p, hp, rfl⟩
    exact (hspec p hp).1
  have htot : (renew_files_cache
      { st with fs := st.fs.filter (fun p => decide (p.1 ≠ f)) }).isSome = true :=
    renew_total _ hok
  have hlookup_none : ∀ st1, renew_files_cache
      { st with fs := st.fs.filter (fun p => decide (p.1 ≠ f)) } = some st1 →
      alookup st1.cache X = none := by
    intro st1 hren
    rcases renew_count_eq _ _ hren with ⟨n, hcnt⟩
    rcases renew_count_spec _ _ n hcnt with ⟨hd, _⟩
    have hpruned : alookup (st.cache.filter
        (fun p => (alookup (st.fs.filter (fun q => decide (q.1 ≠ f))) p.2).isSome)) X =
        none := by
      refine alookup_filter_dropped_of_nodup st.cache _ X f hnd hx ?_
      show (alookup (st.fs.filter (fun q => decide (q.1 ≠ f))) f).isSome = false
      rw [alookup_filter_ne_self]
      rfl
    refine discover_lookup_none _ X _ _ _ _ _ _ _ hd hpruned ?_
    intro g hg _ _ e hge
    rcases List.mem_map.mp hg with ⟨p, hp, rfl⟩
    exact (hspec p hp).2 e hge
  have hcachefile : ∀ st1, renew_files_cache
      { st with fs := st.fs.filter (fun p => decide (p.1 ≠ f)) } = some st1 →
      ∀ g ∈ st1.cache.map Prod.snd, ∃ c,
        (g, c) ∈ st.fs.filter (fun p => decide (p.1 ≠ f)) := by
    intro st1 hren g hg
    rcases List.mem_map.mp hg with ⟨p, hp, rfl⟩
    have := renew_cache_exists _ st1 hren p hp
    cases hc : alookup (st.fs.filter (fun q => decide (q.1 ≠ f))) p.2 with
    | none => rw [hc] at this; exact absurd this (by simp)
    | some c => exact ⟨c, alookup_mem _ _ _ hc⟩
  refine ⟨htot, fun st1 hren => ⟨hlookup_none st1 hren, ?_⟩, ?_, ?_⟩
  · exact find_log_absent _ st1 X hren (hlookup_none st1 hren)
  · intro res st1 hget e he
    have hren := get_history_entries_state _ _ _ hget
    rw [get_history_entries] at hget
    simp only [hren] at hget
    cases hent : history_entries_of st1.fs (st1.cache.map Prod.snd) with
    | none => simp only [hent] at hget; exact absurd hget (by simp)
    | some res' =>
      simp only [hent, Option.some.injEq, Prod.mk.injEq] at hget
      obtain ⟨g, hg, hge⟩ :=
        history_entries_of_mem _ _ res' hent e (by rw [hget.1]; exact he)
      obtain ⟨c, hgc⟩ := hcachefile st1 hren g hg
      have hfs : st1.fs = st.fs.filter (fun p => decide (p.1 ≠ f)) :=
        renew_fs_eq _ _ hren
      rw [hfs] at hge
      exact (hspec (g, c) hgc).2 e hge
  · cases hrenC : renew_files_cache
        { st with fs := st.fs.filter (fun p => decide (p.1 ≠ f)) } with
    | none => rw [hrenC] at htot; exact absurd htot (by simp)
    | some st1 =>
      have hfs : st1.fs = st.fs.filter (fun p => decide (p.1 ≠ f)) :=
        renew_fs_eq _ _ hrenC
      have hcr : ∀ g ∈ st1.cache.map Prod.snd,
          extract_history_entry st1.fs g ≠ none := by
        intro g hg
        obtain ⟨c, hgc⟩ := hcachefile st1 hrenC g hg
        rw [hfs]
        exact (hspec (g, c) hgc).1
      have htote := history_entries_total st1.fs (st1.cache.map Prod.snd) hcr
      rw [get_history_entries]
      simp only [hrenC]
      cases hent : history_entries_of st1.fs (st1.cache.map Prod.snd) with
      | none => rw [hent] at htote; exact absurd htote (by simp)
      | some res' => rfl

/-- Claim C5 witness: an index entry for id `7` backed by `a.log`; deleting
the file empties the directory, the sync succeeds, drops the id, and
`find_log` reports it absent. -/
theorem c5_stale_index_witness :
    (renew_files_cache
      { (⟨[(pstr ("a.log"), pstr ("id:7\n>>>>>  OUTPUT STARTED <<<<<\n"))],
          [pstr ("a.log")], [(pstr ("7"), pstr ("a.log"))]⟩ : LogState) with
        fs := ([(pstr ("a.log"), pstr ("id:7\n>>>>>  OUTPUT STARTED <<<<<\n"))] :
          FS).filter (fun p => decide (p.1 ≠ pstr ("a.log"))) }).isSome = true ∧
    alookup ((⟨[], [pstr ("a.log")], []⟩ : LogState)).cache (pstr ("7")) = none ∧
    find_log
      { (⟨[(pstr ("a.log"), pstr ("id:7\n>>>>>  OUTPUT STARTED <<<<<\n"))],
          [pstr ("a.log")], [(pstr ("7"), pstr ("a.log"))]⟩ : LogState) with
        fs := ([(pstr ("a.log"), pstr ("id:7\n>>>>>  OUTPUT STARTED <<<<<\n"))] :
          FS).filter (fun p => decide (p.1 ≠ pstr ("a.log"))) } (pstr ("7")) =
      some (none, ⟨[], [pstr ("a.log")], []⟩) :=
  ⟨(c5_stale_index
      ⟨[(pstr ("a.log"), pstr ("id:7\n>>>>>  OUTPUT STARTED <<<<<\n"))],
        [pstr ("a.log")], [(pstr ("7"), pstr ("a.log"))]⟩
      (pstr ("7")) (pstr ("a.log")) (by decide) (by decide) (by decide)).1,
    ((c5_stale_index
      ⟨[(pstr ("a.log"), pstr ("id:7\n>>>>>  OUTPUT STARTED <<<<<\n"))],
        [pstr ("a.log")], [(pstr ("7"), pstr ("a.log"))]⟩
      (pstr ("7")) (pstr ("a.log")) (by decide) (by decide) (by decide)).2.1
      ⟨[], [pstr ("a.log")], []⟩ (by decide)).1,
    ((c5_stale_index
      ⟨[(pstr ("a.log"), pstr ("id:7\n>>>>>  OUTPUT STARTED <<<<<\n"))],
        [pstr ("a.log")], [(pstr ("7"), pstr ("a.log"))]⟩
      (pstr ("7")) (pstr ("a.log")) (by decide) (by decide) (by decide)).2.1
      ⟨[], [pstr ("a.log")], []⟩ (by decide)).2⟩

/-! ### The exit-code patch (C2) -/

lemma fields_text_snoc (pairs : List (PyStr × PyStr)) (kv : PyStr × PyStr) :
    fields_text (pairs ++ [kv]) = fields_text pairs ++ encode_field kv.1 kv.2 := by
  simp only [fields_text, List.map_append, List.flatten_append, List.map_cons,
    List.map_nil, List.flatten_cons, List.flatten_nil, List.append_nil]

lemma mem_of_head? (l : PyStr) (a : Char) (h : l.head? = some a) : a ∈ l := by
  cases l with
  | nil => exact Option.noConfusion h
  | cons b t =>
    have hb : b = a := by injection h
    rw [← hb]
    exact List.mem_cons_self b t

lemma begins_head (p s : PyStr) (c : Char) (hp : p.head? = some c)
    (h : begins p s = true) : s.head? = some c := by
  rw [begins_iff] at h
  cases p with
  | nil => exact Option.noConfusion hp
  | cons d p2 =>
    cases s with
    | nil =>
      rw [List.take_nil] at h
      exact List.noConfusion h
    | cons a s2 =>
      rw [List.length_cons, List.take_succ_cons] at h
      have ha : a = d := by injection h
      rw [List.head?_cons, ha]
      simpa using hp

lemma pyStrOfInt_no_gt (m : Int) : ('>') ∉ pyStrOfInt m := by
  intro hmem
  rw [pyStrOfInt] at hmem
  by_cases hm : m < 0
  · rw [if_pos hm] at hmem
    rcases List.mem_cons.mp hmem with h1 | h1
    · exact absurd h1 (by decide)
    · exact absurd (natToChars_digits _ ('>') h1) (by decide)
  · rw [if_neg hm] at hmem
    exact absurd (natToChars_digits _ ('>') hmem) (by decide)

lemma no_marker_in_exit_line (H : PyStr) (c : Int)
    (hlast : H.getLast? = some ('\n'))
    (hno : ∀ i, i < H.length → begins MARKER (H.drop i) = false) :
    ∀ i, i < (H ++ encode_field keyExitCode (pyStrOfInt c)).length →
      begins MARKER ((H ++ encode_field keyExitCode (pyStrOfInt c)).drop i) = false := by
  intro i hi
  by_cases hiH : i < H.length
  · exact begins_marker_false_extend H _ hlast hno i hiH
  · have hdrop : (H ++ encode_field keyExitCode (pyStrOfInt c)).drop i =
        (encode_field keyExitCode (pyStrOfInt c)).drop (i - H.length) := by
      rw [List.drop_append_eq_append_drop, List.drop_eq_nil_of_le (le_of_not_lt hiH)]
      rfl
    rw [hdrop]
    cases hb : begins MARKER
        ((encode_field keyExitCode (pyStrOfInt c)).drop (i - H.length)) with
    | false => rfl
    | true =>
      exfalso
      have hhd := begins_head MARKER _ ('>') (by decide) hb
      have hmem : ('>') ∈ encode_field keyExitCode (pyStrOfInt c) :=
        List.drop_subset _ _ (mem_of_head? _ _ hhd)
      rw [encode_field] at hmem
      rcases List.mem_append.mp hmem with h1 | h1
      · rcases List.mem_append.mp h1 with h2 | h2
        · exact absurd h2 (by decide)
        · rcases List.mem_cons.mp h2 with h3 | h3
          · exact absurd h3 (by decide)
          · exact pyStrOfInt_no_gt c h3
      · exact absurd h1 (by decide)

/-- Claim C2 (amended): for an execution whose transcript is the generated
header followed by the marker line and a body, if no occurrence of the
marker starts inside the header text, the exit-code provider reports `c`
and the patch runs, then the patch rewrites the file to the same header
extended with an `exit_code` field, `find_history_entry` afterwards
returns an entry with `exit_code = c` and `id` unchanged, and `find_log`
returns byte-for-byte the same body before and after the patch.  (The
no-marker hypothesis is necessary: a field value containing the marker
derails the patch, see the counterexample.) -/
theorem c2_exit_code_patch (st : LogState) (eid un uid sc cmd fname body : PyStr)
    (stm c : Int) (provider : PyStr → Option Int)
    (heid : ¬ (eid = []))
    (hl0 : lineFree eid = true) (hl1 : lineFree un = true) (hl2 : lineFree uid = true)
    (hl3 : lineFree sc = true) (hl4 : lineFree cmd = true)
    (hvis : allVisited st = true)
    (hnd : (st.cache.map Prod.fst).Nodup)
    (hcl : alookup st.cache eid = some fname)
    (hfl : alookup st.fs fname = some (start_logging_content eid un uid sc cmd stm ++ body))
    (hnoM : ∀ i, i < (fields_text (header_pairs eid un uid sc cmd stm)).length →
      begins MARKER ((fields_text (header_pairs eid un uid sc cmd stm)).drop i) = false)
    (hprov : provider eid = some c) :
    Option.map Prod.fst (find_log st eid) = some (some body) ∧
    write_post_execution_info st.fs eid fname provider =
      some (dict_set st.fs fname
        (fields_text (header_pairs eid un uid sc cmd stm ++
            [(keyExitCode, pyStrOfInt c)]) ++ MARKER ++ os_linesep ++ body)) ∧
    Option.map Prod.fst (find_log
      { st with fs := dict_set st.fs fname
                        (fields_text (header_pairs eid un uid sc cmd stm ++
                          [(keyExitCode, pyStrOfInt c)]) ++ MARKER ++ os_linesep ++ body) }
      eid) =
      some (some body) ∧
    Option.map (fun r => Option.map HistoryEntry.exit_code r.1)
      (find_history_entry
        { st with fs := dict_set st.fs fname
                          (fields_text (header_pairs eid un uid sc cmd stm ++
                            [(keyExitCode, pyStrOfInt c)]) ++ MARKER ++ os_linesep ++ body) }
        eid) =
      some (some (some c)) ∧
    Option.map (fun r => Option.map HistoryEntry.id r.1)
      (find_history_entry
        { st with fs := dict_set st.fs fname
                          (fields_text (header_pairs eid un uid sc cmd stm ++
                            [(keyExitCode, pyStrOfInt c)]) ++ MARKER ++ os_linesep ++ body) }
        eid) =
      some (some eid) := by
  set P := header_pairs eid un uid sc cmd stm with hP
  set NC := fields_text (P ++ [(keyExitCode, pyStrOfInt c)]) ++ MARKER ++ os_linesep ++ body
    with hNC
  have hgood : ∀ p ∈ P, goodKey p.1 = true ∧ lineFree p.2 = true :=
    header_pairs_good eid un uid sc cmd stm hl0 hl1 hl2 hl3 hl4
  have hPne : P ≠ [] := by
    rw [hP, header_pairs]
    exact List.cons_ne_nil _ _
  have hlastH : (fields_text P).getLast? = some ('\n') := fields_text_getLast _ hPne
  have hshape : start_logging_content eid un uid sc cmd stm ++ body =
      fields_text P ++ (MARKER ++ os_linesep) ++ body := by
    rw [start_logging_content]
    simp [List.append_assoc]
  have hfl2 : alookup st.fs fname =
      some (fields_text P ++ (MARKER ++ os_linesep) ++ body) := by
    rw [hfl, hshape]
  have hren := renew_via_allVisited st hvis
  have hfsome : (alookup st.fs fname).isSome = true := by
    rw [hfl]
    rfl
  have hcl1 : alookup (st.cache.filter (fun p => (alookup st.fs p.2).isSome)) eid =
      some fname :=
    alookup_filter_of_nodup st.cache _ eid fname hnd hcl hfsome
  have hshape2 : fields_text P ++ (MARKER ++ os_linesep) ++ body =
      fields_text P ++ MARKER ++ (os_linesep ++ body) := by
    simp [List.append_assoc]
  have hsplitM : splitOnce MARKER (fields_text P ++ (MARKER ++ os_linesep) ++ body) =
      some (fields_text P, os_linesep ++ body) := by
    rw [hshape2]
    exact splitOnce_marker_content _ _ hlastH hnoM
  have hbefore := find_log_spec st _ eid fname _ (fields_text P) (os_linesep ++ body)
    hren hcl1 hfl2 hsplitM
  have hbody1 : lstrip_any_linesep (os_linesep ++ body) = body := by
    show lstrip_any_linesep (('\n') :: body) = body
    exact lstrip_linesep body
  have hsplitMN : splitOnce (MARKER ++ os_linesep)
      (fields_text P ++ (MARKER ++ os_linesep) ++ body) = some (fields_text P, body) :=
    splitOnce_markernl_content _ _ hlastH hnoM
  have hsnoc : fields_text (P ++ [(keyExitCode, pyStrOfInt c)]) =
      fields_text P ++ encode_field keyExitCode (pyStrOfInt c) :=
    fields_text_snoc P _
  have hNCeq : fields_text P ++ keyExitCode ++ (':') :: pyStrOfInt c ++ os_linesep ++
        MARKER ++ os_linesep ++ body = NC := by
    rw [hNC, hsnoc, encode_field]
    simp [List.append_assoc]
  have hwrite : write_post_execution_info st.fs eid fname provider =
      some (dict_set st.fs fname NC) := by
    simp only [write_post_execution_info, hprov, hfl2, hsplitMN]
    rw [hNCeq]
  have hmemfs : (fname, start_logging_content eid un uid sc cmd stm ++ body) ∈ st.fs :=
    alookup_mem st.fs fname _ hfl
  have hmemvis : fname ∈ st.visited := by
    have := List.all_eq_true.mp hvis _ hmemfs
    simpa using this
  have hvis2 : allVisited { st with fs := dict_set st.fs fname NC } = true :=
    allVisited_overwrite st fname NC hvis hmemvis
  have hren2 := renew_via_allVisited _ hvis2
  have hfl3 : alookup (dict_set st.fs fname NC) fname = some NC :=
    alookup_dict_set_self st.fs fname NC
  have hfsome2 : (alookup (dict_set st.fs fname NC) fname).isSome = true := by
    rw [hfl3]
    rfl
  have hcl2 : alookup (st.cache.filter
      (fun p => (alookup (dict_set st.fs fname NC) p.2).isSome)) eid = some fname :=
    alookup_filter_of_nodup st.cache _ eid fname hnd hcl hfsome2
  have hPkvne : P ++ [(keyExitCode, pyStrOfInt c)] ≠ [] := by
    simp
  have hlastH2 : (fields_text (P ++ [(keyExitCode, pyStrOfInt c)])).getLast? =
      some ('\n') := fields_text_getLast _ hPkvne
  have hnoM2 : ∀ i, i < (fields_text (P ++ [(keyExitCode, pyStrOfInt c)])).length →
      begins MARKER ((fields_text (P ++ [(keyExitCode, pyStrOfInt c)])).drop i) = false := by
    rw [hsnoc]
    exact no_marker_in_exit_line (fields_text P) c hlastH hnoM
  have hshape3 : NC = fields_text (P ++ [(keyExitCode, pyStrOfInt c)]) ++ MARKER ++
      (os_linesep ++ body) := by
    rw [hNC]
    simp [List.append_assoc]
  have hsplitM2 : splitOnce MARKER NC =
      some (fields_text (P ++ [(keyExitCode, pyStrOfInt c)]), os_linesep ++ body) := by
    rw [hshape3]
    exact splitOnce_marker_content _ _ hlastH2 hnoM2
  have hafter := find_log_spec { st with fs := dict_set st.fs fname NC } _ eid fname NC
    (fields_text (P ++ [(keyExitCode, pyStrOfInt c)])) (os_linesep ++ body)
    hren2 hcl2 hfl3 hsplitM2
  have hgood2 : ∀ p ∈ P ++ [(keyExitCode, pyStrOfInt c)],
      goodKey p.1 = true ∧ lineFree p.2 = true := by
    intro p hp
    rcases List.mem_append.mp hp with h1 | h1
    · exact hgood p h1
    · rcases List.mem_cons.mp h1 with h2 | h2
      · rw [h2]
        exact ⟨show goodKey keyExitCode = true by decide, pyStrOfInt_lineFree c⟩
      · exact absurd h2 (List.not_mem_nil p)
  have hext : extract_history_entry (dict_set st.fs fname NC) fname =
      parameters_to_entry (insertAll [] (P ++ [(keyExitCode, pyStrOfInt c)])) := by
    refine extract_history_entry_generated _ fname _ body ?_ hgood2
    rw [hfl3, hNC]
  have hid : alookup (insertAll [] (P ++ [(keyExitCode, pyStrOfInt c)])) keyId =
      some eid := rfl
  have hec2 : alookup (insertAll [] (P ++ [(keyExitCode, pyStrOfInt c)])) keyExitCode =
      some (pyStrOfInt c) := rfl
  have hstt : alookup (insertAll [] (P ++ [(keyExitCode, pyStrOfInt c)])) keyStartTime =
      some (pyStrOfInt stm) := rfl
  have hpe : parameters_to_entry (insertAll [] (P ++ [(keyExitCode, pyStrOfInt c)])) =
      some (some (mkEntry (P ++ [(keyExitCode, pyStrOfInt c)]) eid (some c)
        (some (ms_to_datetime stm)))) := by
    rw [parameters_to_entry_of_exit _ eid (pyStrOfInt c) c hid heid hec2
        (pyInt?_pyStrOfInt c),
      parameters_to_entry_aux_of _ eid (some c) (pyStrOfInt stm) stm hstt
        (pyStrOfInt_ne_nil stm) (pyInt?_pyStrOfInt stm)]
    rfl
  have hextval : extract_history_entry (dict_set st.fs fname NC) fname =
      some (some (mkEntry (P ++ [(keyExitCode, pyStrOfInt c)]) eid (some c)
        (some (ms_to_datetime stm)))) := by
    rw [hext, hpe]
  have hfind2 := find_history_entry_spec { st with fs := dict_set st.fs fname NC } _
    eid fname (some (mkEntry (P ++ [(keyExitCode, pyStrOfInt c)]) eid (some c)
      (some (ms_to_datetime stm)))) hren2 hcl2 hextval
  refine ⟨?_, hwrite, ?_, ?_, ?_⟩
  · rw [hbefore, hbody1]
    rfl
  · rw [hafter, hbody1]
    rfl
  · rw [hfind2]
    rfl
  · rw [hfind2]
    rfl

/-- Claim C2 witness: a one-file directory with execution id `7`; before the
patch `find_log` returns the body `out`, and after the patch
`find_history_entry` reports exit code `0`. -/
theorem c2_exit_code_patch_witness :
    Option.map Prod.fst (find_log
      ⟨[(pstr ("a.log"),
          pstr ("id:7\nuser_name:u\nuser_id:1\nscript:s\nstart_time:5\ncommand:c\n>>>>>  OUTPUT STARTED <<<<<\nout\n"))],
        [pstr ("a.log")], [(pstr ("7"), pstr ("a.log"))]⟩ (pstr ("7"))) =
      some (some (pstr ("out\n"))) ∧
    Option.map (fun r => Option.map HistoryEntry.exit_code r.1)
      (find_history_entry
        ⟨dict_set
            [(pstr ("a.log"),
              pstr ("id:7\nuser_name:u\nuser_id:1\nscript:s\nstart_time:5\ncommand:c\n>>>>>  OUTPUT STARTED <<<<<\nout\n"))]
            (pstr ("a.log"))
            (fields_text (header_pairs (pstr ("7")) (pstr ("u")) (pstr ("1")) (pstr ("s"))
                (pstr ("c")) 5 ++ [(keyExitCode, pyStrOfInt 0)]) ++ MARKER ++ os_linesep ++
              pstr ("out\n")),
          [pstr ("a.log")], [(pstr ("7"), pstr ("a.log"))]⟩ (pstr ("7"))) =
      some (some (some 0)) :=
  ⟨(c2_exit_code_patch
      ⟨[(pstr ("a.log"),
          pstr ("id:7\nuser_name:u\nuser_id:1\nscript:s\nstart_time:5\ncommand:c\n>>>>>  OUTPUT STARTED <<<<<\nout\n"))],
        [pstr ("a.log")], [(pstr ("7"), pstr ("a.log"))]⟩
      (pstr ("7")) (pstr ("u")) (pstr ("1")) (pstr ("s")) (pstr ("c")) (pstr ("a.log"))
      (pstr ("out\n")) 5 0 (fun _ => some 0)
      (by decide) (by decide) (by decide) (by decide) (by decide) (by decide)
      (by decide) (by decide) (by decide) (by decide) (by decide) rfl).1,
   (c2_exit_code_patch
      ⟨[(pstr ("a.log"),
          pstr ("id:7\nuser_name:u\nuser_id:1\nscript:s\nstart_time:5\ncommand:c\n>>>>>  OUTPUT STARTED <<<<<\nout\n"))],
        [pstr ("a.log")], [(pstr ("7"), pstr ("a.log"))]⟩
      (pstr ("7")) (pstr ("u")) (pstr ("1")) (pstr ("s")) (pstr ("c")) (pstr ("a.log"))
      (pstr ("out\n")) 5 0 (fun _ => some 0)
      (by decide) (by decide) (by decide) (by decide) (by decide) (by decide)
      (by decide) (by decide) (by decide) (by decide) (by decide) rfl).2.2.2.1⟩

/-- Claim C2 counterexample: when the `command` field value is the marker
string itself, the patch splits the file at the command line instead of the
real marker line, so the `exit_code` text is swallowed into the `command`
value and `find_history_entry` still reports `exit_code` absent after the
provider reported code `0` and the patch ran — refuting the claim as stated
over all field values. -/
theorem c2_counterexample :
    write_post_execution_info
        [(pstr ("a.log"),
          pstr ("id:7\ncommand:>>>>>  OUTPUT STARTED <<<<<\n>>>>>  OUTPUT STARTED <<<<<\nout\n"))]
        (pstr ("7")) (pstr ("a.log")) (fun _ => some 0) =
      some [(pstr ("a.log"),
        pstr ("id:7\ncommand:exit_code:0\n>>>>>  OUTPUT STARTED <<<<<\n>>>>>  OUTPUT STARTED <<<<<\nout\n"))] ∧
    Option.map (fun r => Option.map HistoryEntry.exit_code r.1)
      (find_history_entry
        ⟨[(pstr ("a.log"),
            pstr ("id:7\ncommand:exit_code:0\n>>>>>  OUTPUT STARTED <<<<<\n>>>>>  OUTPUT STARTED <<<<<\nout\n"))],
          [pstr ("a.log")], [(pstr ("7"), pstr ("a.log"))]⟩ (pstr ("7"))) =
      some (some none) := by
  exact ⟨by decide, by decide⟩
